import Mathlib

/-!
Verification development for the forklift-controller plan migration engine
(`pkg/controller/plan/migration.go`) and the vSphere inventory web layer.

The Go source is embedded shallowly: pure data is translated to Lean
structures, pointer mutation becomes explicit state passing, and calls into
collaborators that live outside the embedded file (the kubevirt import
reconciler, the hook runner, the scheduler, the inventory service) are
parameters of the functions that invoke them.  Library helpers from the
konveyor condition / itinerary packages and the `plan` API types, whose
source is not part of this repository snapshot, are modelled from the
specification; each such definition carries a doc comment saying so.
-/

namespace Forklift

/-- Condition status strings (libcnd). Modelled from the spec: a condition
has status True/False/Unknown. -/
def True' : String := "True"

/-- Condition status `False`. -/
def False' : String := "False"

/-- Condition category used by the migration controller. -/
def Advisory : String := "Advisory"

/-- Reason used on the user-requested cancellation condition. -/
def UserRequested : String := "UserRequested"

/-- Phase `Started` (source constant). -/
def Started : String := "Started"

/-- Phase `PreHook` (source constant). -/
def PreHook : String := "PreHook"

/-- Phase `CreateImport` (source constant). -/
def CreateImport : String := "CreateImport"

/-- Phase `ImportCreated` (source constant). -/
def ImportCreated : String := "ImportCreated"

/-- Phase `PostHook` (source constant). -/
def PostHook : String := "PostHook"

/-- Phase `Completed` (source constant). -/
def Completed : String := "Completed"

/-- Pipeline step name `DiskTransfer` (source constant). -/
def DiskTransfer : String := "DiskTransfer"

/-- Pipeline step name `ImageConversion` (source constant). -/
def ImageConversion : String := "ImageConversion"

/-- Condition type `Succeeded`. -/
def Succeeded : String := "Succeeded"

/-- Condition type `Failed`. -/
def Failed : String := "Failed"

/-- Condition type `Canceled`. -/
def Canceled : String := "Canceled"

/-- Condition type `Executing` (plan snapshot). -/
def Executing : String := "Executing"

/-- Condition type / vmio reason `Pending`. -/
def Pending : String := "Pending"

/-- Condition type `Paused`. -/
def Paused : String := "Paused"

/-- Task/step phase `Blocked`. -/
def Blocked : String := "Blocked"

/-- Task/step phase and data-volume condition type `Running`. -/
def Running : String := "Running"

/-- vmio Processing-condition reason `CopyingStage`. -/
def CopyingStage : String := "CopyingStage"

/-- vmio Processing-condition reason `CopyingPaused`. -/
def CopyingPaused : String := "CopyingPaused"

/-- vmio Processing-condition reason `ConvertingGuest`. -/
def ConvertingGuest : String := "ConvertingGuest"

/-- Data-volume condition type `Bound`. -/
def Bound : String := "Bound"

/-- Data-volume condition type `Ready`. -/
def Ready : String := "Ready"

/-- Import condition type `Processing`. -/
def Processing : String := "Processing"

/-- A libcnd condition. Modelled from the spec: type, status, category,
reason, message, durable flag and last-transition-time. -/
structure Condition where
  type : String
  status : String := True'
  category : String := ""
  reason : String := ""
  message : String := ""
  durable : Bool := false
  lastTransitionTime : Nat := 0
deriving DecidableEq, Repr

/-- Find the condition of a given type (libcnd `FindCondition`).
Modelled from the spec. -/
def findCondition (l : List Condition) (t : String) : Option Condition :=
  l.find? (fun c => c.type = t)

/-- Whether a condition of the given type is held with status True
(libcnd `HasCondition`). Modelled from the spec: a condition is considered
held when present with status True. -/
def hasCondition (l : List Condition) (t : String) : Bool :=
  l.any (fun c => decide (c.type = t ∧ c.status = True'))

/-- Whether any of the given condition types is held (libcnd
`HasAnyCondition`). Modelled from the spec. -/
def hasAnyCondition (l : List Condition) (ts : List String) : Bool :=
  ts.any (fun t => hasCondition l t)

/-- Set (replace-or-append) a condition (libcnd `SetCondition`).
Modelled from the spec. -/
def setCondition (l : List Condition) (c : Condition) : List Condition :=
  l.filter (fun x => if x.type = c.type then false else true) ++ [c]

/-- Delete all conditions whose type is listed (libcnd `DeleteCondition`).
Modelled from the spec. -/
def deleteCondition (l : List Condition) (ts : List String) : List Condition :=
  l.filter (fun c => if c.type ∈ ts then false else true)

/-- A VM reference together with its hook bindings, as listed on the plan
spec (`plan.VM`). Modelled from the spec: a ref plus optional hook
bindings; a hook is identified by the step name it is bound to. -/
structure VM where
  ref : String
  hooks : List String := []
deriving DecidableEq, Repr

/-- A pipeline task (`plan.Task` leaf): one disk. `completedP` is
`Progress.Completed`, `total` is `Progress.Total`. Modelled from the
spec (the shape is shared with steps, minus sub-tasks). -/
structure Task where
  name : String
  description : String := ""
  phase : String := ""
  reason : String := ""
  total : Int := 0
  completedP : Int := 0
  started : Bool := false
  completed : Bool := false
deriving DecidableEq, Repr

/-- A pipeline step (`plan.Step`): a task shape plus sub-tasks and an error
list (`step.Error`, empty list standing for the nil pointer). Modelled from
the spec. -/
structure PStep where
  name : String
  description : String := ""
  phase : String := ""
  reason : String := ""
  total : Int := 0
  completedP : Int := 0
  unit : String := ""
  tasks : List Task := []
  error : List String := []
  started : Bool := false
  completed : Bool := false
deriving DecidableEq, Repr

/-- A warm-migration pre-copy interval (`plan.Precopy`): start and end
transition times, `none` standing for a nil pointer. -/
structure Precopy where
  start : Option Nat := none
  End : Option Nat := none
deriving DecidableEq, Repr

/-- Warm-migration substate (`plan.Warm`). Modelled from the spec. -/
structure Warm where
  successes : Int := 0
  failures : Int := 0
  consecutiveFailures : Int := 0
  nextPrecopyAt : Option Nat := none
  precopies : List Precopy := []
deriving DecidableEq, Repr

/-- Per-VM execution status (`plan.VMStatus`): the embedded `plan.VM`
(flattened into `ref` and `hooks`), the phase, pipeline, conditions,
aggregated error list (`vm.Error`, empty list standing for nil), the
started/completed marks and the warm substate. Modelled from the spec. -/
structure VMStatus where
  ref : String
  hooks : List String := []
  phase : String := ""
  pipeline : List PStep := []
  conditions : List Condition := []
  error : List String := []
  started : Bool := false
  completed : Bool := false
  warm : Option Warm := none
deriving DecidableEq, Repr

/-- Append reasons to the VM's aggregated error list (`VMStatus.AddError`).
Modelled from the spec: errors are appended to the error list. -/
def addError (vm : VMStatus) (reasons : List String) : VMStatus :=
  { vm with error := vm.error ++ reasons }

/-- Find a pipeline step by name (`VMStatus.FindStep`). Modelled from the
spec. -/
def findStep (p : List PStep) (n : String) : Option PStep :=
  p.find? (fun s => s.name = n)

/-- Find a task by name (`Step.FindTask`). Modelled from the spec. -/
def findTask (ts : List Task) (n : String) : Option Task :=
  ts.find? (fun t => t.name = n)

/-- Replace the first task with the given name (functional counterpart of
mutating the task returned by `FindTask`). -/
def updateFirstTask : List Task → String → (Task → Task) → List Task
  | [], _, _ => []
  | t :: rest, n, f =>
    if t.name = n then f t :: rest else t :: updateFirstTask rest n f

/-- Replace the first step with the given name (functional counterpart of
mutating the step returned by `FindStep`). -/
def updateFirstStep : List PStep → String → (PStep → PStep) → List PStep
  | [], _, _ => []
  | s :: rest, n, f =>
    if s.name = n then f s :: rest else s :: updateFirstStep rest n f

/-- The fixed itinerary names, in order (source `itinerary`). -/
def fullItinerary : List String :=
  [Started, PreHook, CreateImport, ImportCreated, PostHook, Completed]

/-- Predicate evaluation (source `Predicate.Evaluate`): false when the VM
has no hooks, otherwise whether a hook bound to the given step name is
found. -/
def predEval (hooks : List String) (hookName : String) : Bool :=
  if hooks = [] then false else decide (hookName ∈ hooks)

/-- Whether an itinerary entry is admissible for a VM: `PreHook` and
`PostHook` are guarded by the hook predicate, everything else is
unconditional (source `itinerary` flags). -/
def entryAllowed (hooks : List String) (name : String) : Bool :=
  if name = PreHook then predEval hooks PreHook
  else if name = PostHook then predEval hooks PostHook
  else true

/-- The next admissible itinerary entry after a phase; `none` when the
phase is unknown or the end is reached (libitr `Itinerary.Next`).
Modelled from the spec. -/
def nextAfter (hooks : List String) : List String → String → Option String
  | [], _ => none
  | n :: rest, phase =>
    if n = phase then rest.find? (fun m => entryAllowed hooks m)
    else nextAfter hooks rest phase

/-- `Migration.next`: the next phase, `Completed` when done or on error. -/
def nextPhase (hooks : List String) (phase : String) : String :=
  (nextAfter hooks fullItinerary phase).getD Completed

/-- The first admissible itinerary entry (libitr `Itinerary.First`).
Modelled from the spec. -/
def itinFirst (hooks : List String) : String :=
  (fullItinerary.find? (fun m => entryAllowed hooks m)).getD Completed

/-- Truncation of a rational toward zero, the direction of Go's
float64-to-int64 conversion. The source computes progress percentages in
float64; rationals stand in for floats here. -/
def truncRat (q : Rat) : Int :=
  Int.tdiv q.num (Int.ofNat q.den)

/-- An observed data volume of the import resource. `dvId` is the payload
the data-volume identifier resolver reads; `percent` is
`dv.PercentComplete()`. Modelled from the spec. -/
structure DataVolume where
  dvId : String := ""
  conditions : List Condition := []
  percent : Rat := 0
deriving DecidableEq, Repr

/-- The observed import custom resource (`VmImport`): warm flag and
counters, its conditions, its data volumes and its aggregate
`PercentComplete()`. Modelled from the spec. -/
structure VmImport where
  warm : Bool := false
  warmSuccesses : Int := 0
  warmFailures : Int := 0
  warmConsecutiveFailures : Int := 0
  warmNextStageTime : Option Nat := none
  conditions : List Condition := []
  dataVolumes : List DataVolume := []
  percent : Rat := 0
deriving DecidableEq, Repr

/-- Result of `kubevirt.EnsureImport`: success, the transient
`ProviderNotReadyError`, or any other failure with its message. -/
inductive EnsureResult
  | ok
  | notReady
  | failed (msg : String)
deriving DecidableEq, Repr

/-- Per-step-call environment: the outcomes of the collaborator calls
`step` makes (import reconciler, hook runner, import map) and the
builder's data-volume identifier resolver. -/
structure StepEnv where
  ensure : EnsureResult := .ok
  hookErr : Option String := none
  hookEffect : PStep → PStep := id
  importMapErr : Bool := false
  imp : Option VmImport := none
  resolve : DataVolume → String := fun dv => dv.dvId

/-- The durable `Canceled` condition stamped by `step` (source). -/
def canceledCondition : Condition :=
  { type := Canceled, status := True', category := Advisory,
    reason := UserRequested, message := "The migration has been canceled.",
    durable := true }

/-- The durable `Succeeded` condition stamped by `step` (source). -/
def succeededCondition : Condition :=
  { type := Succeeded, status := True', category := Advisory,
    message := "The VM migration has SUCCEEDED.", durable := true }

/-- The durable `Failed` condition stamped by `step` (source). -/
def failedCondition : Condition :=
  { type := Failed, status := True', category := Advisory,
    message := "The VM migration has FAILED.", durable := true }

/-- The `Pending` VM condition set by `updatePipeline` (source). -/
def pendingCondition : Condition :=
  { type := Pending, status := True', category := Advisory,
    message := "The VM migration is PENDING." }

/-- The `Paused` VM condition set by `updatePipeline` (source). -/
def pausedCondition : Condition :=
  { type := Paused, status := True', category := Advisory,
    message := "The VM migration is PAUSED." }

/-- The `Bound` condition of a data volume when it would block the task:
present with status False (source `updatePipeline`, DiskTransfer arm). -/
def dvBlocked (dv : DataVolume) : Option Condition :=
  match findCondition dv.conditions Bound with
  | some c => if c.status = False' then some c else none
  | none => none

/-- Accumulator of the per-data-volume loop of the DiskTransfer arm: the
tasks being updated in place and the three counters. -/
structure DvAcc where
  tasks : List Task
  blocked : Nat := 0
  completedN : Nat := 0
  running : Nat := 0

/-- The update applied to a task matched to a running data volume
(source `updatePipeline`, DiskTransfer arm): mark started, phase
Running, propagate the reason, set the completed progress from the
volume's percentage, and on a held Ready condition complete the task
outright. -/
def runUpd (dv : DataVolume) (c : Condition) (t : Task) : Task :=
  let t1 : Task :=
    { t with
      started := true
      phase := Running
      reason := c.reason
      completedP := truncRat (dv.percent * (t.total : Rat)) }
  if hasCondition dv.conditions Ready then
    { t1 with completedP := t1.total, completed := true }
  else t1

/-- One iteration of the data-volume loop (source `updatePipeline`,
`nextDv` loop body): resolve the volume to a task; a Bound=False volume
blocks the task; a volume without a Running condition is skipped;
otherwise the task is started, set Running with the observed percentage,
and completed outright when the Ready condition is held. -/
def processDv (resolve : DataVolume → String) (a : DvAcc) (dv : DataVolume) :
    DvAcc :=
  let name := resolve dv
  match findTask a.tasks name with
  | none => a
  | some _ =>
    match dvBlocked dv with
    | some c =>
      { a with
        tasks := updateFirstTask a.tasks name
          (fun t => { t with phase := Blocked, reason := c.reason }),
        blocked := a.blocked + 1 }
    | none =>
      match findCondition dv.conditions Running with
      | none => a
      | some c =>
        { a with
          tasks := updateFirstTask a.tasks name (runUpd dv c),
          completedN :=
            if hasCondition dv.conditions Ready then a.completedN + 1
            else a.completedN,
          running := a.running + 1 }

/-- The DiskTransfer arm of `updatePipeline` for one step: run the
data-volume loop, then aggregate the step phase from the counters. -/
def diskStepUpdate (resolve : DataVolume → String) (step : PStep)
    (dvs : List DataVolume) : PStep :=
  let a := dvs.foldl (processDv resolve) { tasks := step.tasks }
  let step1 : PStep := { step with tasks := a.tasks }
  if a.completedN = step1.tasks.length then { step1 with phase := Completed }
  else if 0 < a.blocked then { step1 with phase := Blocked }
  else if 0 < a.running then { step1 with phase := Running }
  else step1

/-- The ImageConversion arm of `updatePipeline` for one step: map the
import's Processing condition to VM conditions and the step phase, update
the progress from the aggregate percentage, and finalize on a Succeeded
condition. Returns the updated step and VM condition list. -/
def imageStepUpdate (imp : VmImport) (conds0 : List Condition)
    (step0 : PStep) : PStep × List Condition :=
  let pr :=
    match findCondition imp.conditions Processing with
    | none => (step0, conds0)
    | some c =>
      let conds :=
        if c.reason = Pending then setCondition conds0 pendingCondition
        else if c.reason = CopyingPaused then
          setCondition conds0 pausedCondition
        else conds0
      let step1 :=
        if c.reason = ConvertingGuest ∧ c.status = True' then
          { step0 with started := true }
        else step0
      let step2 := if step1.started then { step1 with phase := c.reason }
        else step1
      (step2, conds)
  let step3 : PStep :=
    { pr.1 with completedP := truncRat (imp.percent * (pr.1.total : Rat)) }
  match findCondition imp.conditions Succeeded with
  | none => (step3, pr.2)
  | some c =>
    let step4 : PStep :=
      { step3 with completed := true, completedP := step3.total }
    if c.status = True' then ({ step4 with phase := Completed }, pr.2)
    else
      ({ step4 with error := step4.error ++ [c.message], phase := c.reason },
       pr.2)

/-- `Step.ReflectTasks`. Modelled from the spec: when sub-tasks are
present, the step's completed progress is the sum of the tasks'. -/
def reflectTasks (step : PStep) : PStep :=
  if step.tasks = [] then step
  else { step with completedP := (step.tasks.map (fun t => t.completedP)).sum }

/-- Accumulator of `updatePipeline`'s step loop: the processed steps, the
VM conditions and the VM error list threaded through the loop. -/
structure PipeAcc where
  steps : List PStep := []
  conds : List Condition := []
  errs : List String := []

/-- One iteration of `updatePipeline`'s step loop: completed steps are
skipped; DiskTransfer and ImageConversion steps are updated from the
observed import; then tasks are reflected and step errors are appended to
the VM error list. -/
def processStep (resolve : DataVolume → String) (imp : VmImport)
    (a : PipeAcc) (step : PStep) : PipeAcc :=
  if step.completed then { a with steps := a.steps ++ [step] }
  else
    let pr :=
      if step.name = DiskTransfer then
        (diskStepUpdate resolve step imp.dataVolumes, a.conds)
      else if step.name = ImageConversion then
        imageStepUpdate imp a.conds step
      else (step, a.conds)
    let step1 := reflectTasks pr.1
    let errs := if step1.error = [] then a.errs else a.errs ++ step1.error
    { steps := a.steps ++ [step1], conds := pr.2, errs := errs }

/-- `Migration.updatePipeline` (source): update each not-yet-completed
pipeline step from the observed import. -/
def updatePipelineFn (resolve : DataVolume → String) (vm : VMStatus)
    (imp : VmImport) : VMStatus :=
  let a := vm.pipeline.foldl (processStep resolve imp)
    { steps := [], conds := vm.conditions, errs := vm.error }
  { vm with pipeline := a.steps, conditions := a.conds, error := a.errs }

/-- Whether the last pre-copy interval is open (`End == nil`). -/
def lastOpen (l : List Precopy) : Bool :=
  match l.getLast? with
  | some p => p.End.isNone
  | none => false

/-- Close the last pre-copy interval with the given time. -/
def closeLast (l : List Precopy) (t : Nat) : List Precopy :=
  match l.getLast? with
  | some p => l.dropLast ++ [{ p with End := some t }]
  | none => l

/-- The pre-copy interval transition driven by the import's Processing
condition (source `updateWarmStatus`): reason `CopyingStage` opens a new
interval when the list is empty or its last interval is closed; reason
`CopyingPaused` closes the last interval when it is open; anything else,
including an absent condition, leaves the list unchanged. -/
def precopyUpdate (pre : List Precopy) (c : Option Condition) :
    List Precopy :=
  match c with
  | none => pre
  | some c =>
    if c.reason = CopyingStage then
      if pre = [] ∨ ¬ lastOpen pre then
        pre ++ [{ start := some c.lastTransitionTime }]
      else pre
    else if c.reason = CopyingPaused then
      if pre ≠ [] ∧ lastOpen pre then closeLast pre c.lastTransitionTime
      else pre
    else pre

/-- `updateWarmStatus` (source): create the warm substate when absent,
copy the counters from the import status, and update the pre-copy
intervals from the Processing condition. -/
def updateWarmStatusFn (vm : VMStatus) (imp : VmImport) : VMStatus :=
  let w0 := vm.warm.getD { precopies := [] }
  let w : Warm :=
    { successes := imp.warmSuccesses,
      failures := imp.warmFailures,
      consecutiveFailures := imp.warmConsecutiveFailures,
      nextPrecopyAt := imp.warmNextStageTime,
      precopies :=
        precopyUpdate w0.precopies (findCondition imp.conditions Processing) }
  { vm with warm := some w }

/-- `Migration.updateVM` (source): look the import up in the import map
(`env.imp`; a missing entry records "Import CR not found."), update the
pipeline, and update the warm substate for warm imports. -/
def updateVMFn (env : StepEnv) (vm : VMStatus) : VMStatus :=
  match env.imp with
  | none => addError vm ["Import CR not found."]
  | some imp =>
    let vm1 := updatePipelineFn env.resolve vm imp
    if imp.warm then updateWarmStatusFn vm1 imp else vm1

/-- The hook runner's effect on the VM (`HookRunner.Run`). Modelled from
the spec: the runner acts on the pipeline step named for the VM's current
phase (marking it completed on success, recording errors on it on
failure); it does not touch the VM's phase, conditions or error list. The
per-call effect on that step is the environment's `hookEffect`. -/
def hookRun (env : StepEnv) (vm : VMStatus) : VMStatus :=
  match findStep vm.pipeline vm.phase with
  | some _ =>
    { vm with pipeline := updateFirstStep vm.pipeline vm.phase env.hookEffect }
  | none => vm

/-- Outcome of the phase switch in `step`: `ret` mirrors a Go `return`
from inside the switch (skipping the post-switch stamping), `fall` mirrors
falling through to it. -/
inductive SwitchOut
  | ret (vm : VMStatus) (err : String)
  | fall (vm : VMStatus)

/-- The VM carried by a switch outcome. -/
def SwitchOut.vmOf : SwitchOut → VMStatus
  | .ret vm _ => vm
  | .fall vm => vm

/-- The shared advance pattern of the ImportCreated arm: when the found
step is completed, advance on no step error and jump to `Completed`
otherwise (source). -/
def advanceOn (vm : VMStatus) (s : PStep) : VMStatus :=
  if s.completed then
    if s.error = [] then { vm with phase := nextPhase vm.hooks vm.phase }
    else { vm with phase := Completed }
  else vm

/-- The phase switch of `Migration.step` (source), with the Go `return`s
inside the switch made explicit as `.ret`. -/
def stepSwitch (env : StepEnv) (vm : VMStatus) : SwitchOut :=
  if vm.phase = Started then
    .fall { vm with started := true, phase := nextPhase vm.hooks vm.phase }
  else if vm.phase = PreHook ∨ vm.phase = PostHook then
    let vm1 := hookRun env vm
    match env.hookErr with
    | some e => .ret vm1 e
    | none =>
      match findStep vm1.pipeline vm1.phase with
      | some s =>
        if s.completed ∧ s.error = [] then
          .fall { vm1 with phase := nextPhase vm1.hooks vm1.phase }
        else .fall vm1
      | none => .fall { vm1 with phase := Completed }
  else if vm.phase = CreateImport then
    match env.ensure with
    | .notReady => .ret vm "provider not ready"
    | .failed m => .fall (addError vm [m])
    | .ok => .fall { vm with phase := nextPhase vm.hooks vm.phase }
  else if vm.phase = ImportCreated then
    match env.ensure with
    | .notReady => .ret vm "provider not ready"
    | .failed m => .fall (addError vm [m])
    | .ok =>
      if env.importMapErr then .ret vm "import map not available"
      else
        let vm1 := updateVMFn env vm
        match findStep vm1.pipeline ImageConversion with
        | some s => .fall (advanceOn vm1 s)
        | none =>
          match findStep vm1.pipeline DiskTransfer with
          | some s => .fall (advanceOn vm1 s)
          | none => .fall vm1
  else if vm.phase = Completed then
    .fall { vm with completed := true }
  else
    let vm1 : VMStatus := { vm with phase := Completed }
    .fall (addError vm1 ["Phase [" ++ vm1.phase ++ "] unknown"])

/-- `VMStatus.ReflectPipeline`. Modelled from the spec: reflects aggregate
progress upward from the steps; it does not modify the phase, the error
list or the conditions, and the aggregate progress fields are not part of
this model, so it is the identity here. -/
def reflectPipeline (vm : VMStatus) : VMStatus := vm

/-- The post-switch stamping of `Migration.step` (source): a VM that
reached `Completed` with no recorded error is stamped `Succeeded`; a VM
with a recorded error is forced to `Completed` and stamped `Failed`. -/
def stampFn (vm : VMStatus) : VMStatus :=
  if vm.phase = Completed ∧ vm.error = [] then
    { vm with conditions := setCondition vm.conditions succeededCondition }
  else if vm.error ≠ [] then
    { vm with
      phase := Completed
      conditions := setCondition vm.conditions failedCondition }
  else vm

/-- `Migration.step` (source): the cancellation check, the phase switch
and the post-switch stamping. Returns the updated status and the error
propagated to the caller (`none` mirrors a nil error). -/
def stepFn (cancelSet : List String) (env : StepEnv) (vm : VMStatus) :
    VMStatus × Option String :=
  if vm.ref ∈ cancelSet then
    ({ vm with
       conditions := setCondition vm.conditions canceledCondition
       phase := Completed }, none)
  else
    match stepSwitch env vm with
    | .ret vm1 e => (vm1, some e)
    | .fall vm1 => (stampFn (reflectPipeline vm1), none)

/-- The `Executing` condition stamped on the active snapshot by `begin`
(source). -/
def executingCondition : Condition :=
  { type := Executing, status := True', category := Advisory,
    message := "The plan is EXECUTING.", durable := true }

/-- The `Failed` outcome condition stamped on the snapshot by `end`
(source). -/
def planFailedCondition : Condition :=
  { type := Failed, status := True', category := Advisory,
    message := "The plan execution has FAILED.", durable := true }

/-- The `Succeeded` outcome condition stamped on the snapshot by `end`
(source). -/
def planSucceededCondition : Condition :=
  { type := Succeeded, status := True', category := Advisory,
    message := "The plan execution has SUCCEEDED.", durable := true }

/-- The `Canceled` outcome condition stamped on the snapshot by `end`
(source). -/
def planCanceledCondition : Condition :=
  { type := Canceled, status := True', category := Advisory,
    message := "The plan execution has been CANCELED.", durable := true }

/-- The plan-scoped state the migration controller mutates: the immutable
plan spec VM list, the status VM list, the active snapshot's conditions,
the migration's cancel set and the migration-status completed mark. -/
structure MState where
  specVMs : List VM
  vms : List VMStatus := []
  snapshot : List Condition := []
  cancelSet : List String := []
  migCompleted : Bool := false
deriving DecidableEq, Repr

/-- Per-begin-call environment: the outcomes of the collaborator calls
`begin` and `buildPipeline` make (namespace creation, inventory
resolution, the builder's per-disk task list) and the provider type. -/
structure BeginEnv where
  namespaceOk : Bool := true
  inventoryOk : String → Bool := fun _ => true
  isVSphere : Bool := false
  tasksFor : String → Option (List Task) := fun _ => some []

/-- `Migration.buildPipeline` (source): the steps contributed by one
itinerary entry. `CreateImport` contributes the DiskTransfer step built
from the builder's tasks (and ImageConversion for vSphere); the hook
entries contribute their hook steps; `none` mirrors a builder error. -/
def buildEntry (env : BeginEnv) (vm : VM) (name : String) :
    Option (List PStep) :=
  if name = PreHook then
    some [{ name := PreHook, description := "Run pre-migration hook.",
            total := 1 }]
  else if name = CreateImport then
    match env.tasksFor vm.ref with
    | none => none
    | some tasks =>
      let total := (tasks.map (fun t => t.total)).sum
      let disk : PStep :=
        { name := DiskTransfer, description := "Transfer disks.",
          total := total, unit := "MB", tasks := tasks }
      if env.isVSphere then
        some [disk,
              { name := ImageConversion,
                description := "Convert image to kubevirt.", total := 1 }]
      else some [disk]
  else if name = PostHook then
    some [{ name := PostHook, description := "Run post-migration hook.",
            total := 1 }]
  else some []

/-- The admissible itinerary entries for a VM, in order; the loop of
`buildPipeline` visits exactly these. -/
def allowedEntries (hooks : List String) : List String :=
  fullItinerary.filter (fun m => entryAllowed hooks m)

/-- `Migration.buildPipeline` (source): concatenate the step
contributions of the admissible itinerary entries; `none` mirrors a
builder error. -/
def buildPipelineFn (env : BeginEnv) (vm : VM) : Option (List PStep) :=
  (allowedEntries vm.hooks).foldl
    (fun acc n => do
      let l ← acc
      let e ← buildEntry env vm n
      pure (l ++ e))
    (some [])

/-- A fresh VMStatus for a spec VM (`&plan.VMStatus{VM: vm}`). -/
def freshStatus (vm : VM) : VMStatus :=
  { ref := vm.ref, hooks := vm.hooks }

/-- `VMStatus.MarkReset`. Modelled from the spec: non-durable conditions
are cleared at the start of each reconcile and the started/completed
marks are reset. -/
def markResetConditions (l : List Condition) : List Condition :=
  l.filter (fun c => c.durable)

/-- The rebuild arm of `begin`'s add/update loop (source): delete the
`Canceled` and `Failed` conditions, reset, install the freshly built
pipeline, reset the phase to the itinerary's first entry and clear the
error list and warm substate. -/
def rebuildStatus (pipeline : List PStep) (firstP : String)
    (st : VMStatus) : VMStatus :=
  { st with
    conditions := markResetConditions
      (deleteCondition st.conditions [Canceled, Failed])
    started := false
    completed := false
    pipeline := pipeline
    phase := firstP
    error := []
    warm := none }

/-- Find a VMStatus by ref (`MigrationStatus.FindVM`). Modelled from the
spec. -/
def findVMStatus (l : List VMStatus) (ref : String) : Option VMStatus :=
  l.find? (fun st => st.ref = ref)

/-- Replace the first VMStatus with the given ref (functional counterpart
of mutating the status returned by `FindVM`). -/
def updateFirstStatus : List VMStatus → String → (VMStatus → VMStatus) →
    List VMStatus
  | [], _, _ => []
  | st :: rest, r, f =>
    if st.ref = r then f st :: rest else st :: updateFirstStatus rest r f

/-- The status `begin`'s add/update loop works on for a spec VM: the
found current status, or a fresh one (source `FindVM` / `&VMStatus{VM:
vm}`). -/
def chooseStatus (cur : List VMStatus) (vm : VM) : VMStatus :=
  match findVMStatus cur vm.ref with
  | some c => c
  | none => freshStatus vm

/-- Write a rebuilt status back into the kept list when it came from
there (the source mutates the found status in place; a fresh status is
not in the kept list). -/
def putStatus (cur : List VMStatus) (ref : String) (st1 : VMStatus) :
    List VMStatus :=
  match findVMStatus cur ref with
  | some _ => updateFirstStatus cur ref (fun _ => st1)
  | none => cur

/-- The add/update loop of `begin` (source): for each spec VM, find or
create its status; rebuild it unless it is `Completed` without a
`Canceled`/`Failed` condition; append it to the output list. `cur` is
the kept status list, threaded because rebuilds mutate its entries in
place in the source; on a builder error the loop aborts and the kept
list (with the rebuilds applied so far) is what remains assigned. -/
def addUpdateLoop (env : BeginEnv) :
    List VM → List VMStatus → List VMStatus →
    List VMStatus × List VMStatus × Bool
  | [], cur, out => (cur, out, false)
  | vm :: rest, cur, out =>
    let st := chooseStatus cur vm
    if st.phase ≠ Completed ∨ hasAnyCondition st.conditions [Canceled, Failed]
    then
      match buildPipelineFn env vm with
      | none => (cur, out, true)
      | some pipeline =>
        let st1 := rebuildStatus pipeline (itinFirst vm.hooks) st
        addUpdateLoop env rest (putStatus cur vm.ref st1) (out ++ [st1])
    else
      addUpdateLoop env rest cur (out ++ [st])

/-- `Migration.begin` (source): no-op when the active snapshot is already
executing or terminal; otherwise stamp `Executing`, ensure the namespace,
drop statuses no longer in the spec (aborting when an inventory lookup
fails), and run the add/update loop. The returned flag mirrors a non-nil
error; partial mutations before an abort are kept, as pointer mutation
keeps them in the source. -/
def beginFn (env : BeginEnv) (s : MState) : MState × Bool :=
  if hasAnyCondition s.snapshot [Executing, Succeeded, Failed, Canceled] then
    (s, false)
  else
    let s1 : MState :=
      { s with
        snapshot := setCondition s.snapshot executingCondition
        migCompleted := false }
    if ¬ env.namespaceOk then (s1, true)
    else if s1.vms.any (fun st => ¬ env.inventoryOk st.ref) then (s1, true)
    else
      let kept := s1.vms.filter
        (fun st => s1.specVMs.any (fun vm => vm.ref = st.ref))
      let r := addUpdateLoop env s1.specVMs kept []
      if r.2.2 then ({ s1 with vms := r.1 }, true)
      else ({ s1 with vms := r.2.1 }, false)

/-- Per-cancel-call environment: the outcome of `DeleteImport` per VM
ref. -/
structure EndEnv where
  deleteOk : String → Bool := fun _ => true

/-- The per-step closure applied by `Cancel` (source): every started step
is marked completed. -/
def cancelStepClose (st : PStep) : PStep :=
  if st.started then { st with completed := true } else st

/-- The VM loop of `Migration.Cancel` (source): for every VM carrying a
`Canceled` or `Failed` condition, delete its import (aborting on a delete
error, keeping the mutations made so far), mark it completed and close
its started steps. -/
def cancelLoop (env : EndEnv) : List VMStatus → List VMStatus × Bool
  | [] => ([], false)
  | vm :: rest =>
    if hasAnyCondition vm.conditions [Canceled, Failed] then
      if env.deleteOk vm.ref then
        let vm1 : VMStatus :=
          { vm with
            completed := true
            pipeline := vm.pipeline.map cancelStepClose }
        let r := cancelLoop env rest
        (vm1 :: r.1, r.2)
      else (vm :: rest, true)
    else
      let r := cancelLoop env rest
      (vm :: r.1, r.2)

/-- `Migration.Cancel` (source) on the plan state. -/
def cancelFn (env : EndEnv) (s : MState) : MState × Bool :=
  let r := cancelLoop env s.vms
  ({ s with vms := r.1 }, r.2)

/-- `Migration.end` (source): report not-completed while any VM is not
marked completed; otherwise mark the migration completed, delete the
snapshot's `Executing` condition and stamp the outcome: `Failed` (also
invoking `Cancel`) when any VM has the `Failed` condition, else
`Succeeded` when any VM has the `Succeeded` condition, else `Canceled`.
Returns (state, completed, error). -/
def endFn (env : EndEnv) (s : MState) : MState × Bool × Bool :=
  if s.vms.any (fun vm => ¬ vm.completed) then (s, false, false)
  else
    let failedN := s.vms.countP (fun vm => hasCondition vm.conditions Failed)
    let succeededN :=
      s.vms.countP (fun vm => hasCondition vm.conditions Succeeded)
    let s1 : MState :=
      { s with
        migCompleted := true
        snapshot := deleteCondition s.snapshot [Executing] }
    if 0 < failedN then
      let s2 : MState :=
        { s1 with snapshot := setCondition s1.snapshot planFailedCondition }
      let r := cancelFn env s2
      (r.1, true, r.2)
    else if 0 < succeededN then
      ({ s1 with snapshot := setCondition s1.snapshot planSucceededCondition },
       true, false)
    else
      ({ s1 with snapshot := setCondition s1.snapshot planCanceledCondition },
       true, false)

/-- The plan states reachable from a fresh plan by the controller's
operations. `Run` is the composition `begin`, then `step` on VMs that are
running or newly admitted by the scheduler, then `end`; both the running
check and the scheduler only select VMs whose phase is one of the
non-terminal itinerary phases (spec §4.F, §4.H), so step transitions are
admitted exactly on VMs whose phase is not `Completed`. The cancel set is
user-edited between reconciles, hence the `recancel` transition. -/
inductive Reach : MState → Prop
  | init (spec : List VM) (cancel : List String) :
      Reach { specVMs := spec, cancelSet := cancel }
  | beginR {s : MState} (env : BeginEnv) : Reach s → Reach (beginFn env s).1
  | stepR {s : MState} (env : StepEnv) (i : Nat) (h : i < s.vms.length)
      (hp : (s.vms.get ⟨i, h⟩).phase ≠ Completed) :
      Reach s →
      Reach { s with
              vms := s.vms.set i
                (stepFn s.cancelSet env (s.vms.get ⟨i, h⟩)).1 }
  | endR {s : MState} (env : EndEnv) : Reach s → Reach (endFn env s).1
  | cancelR {s : MState} (env : EndEnv) : Reach s → Reach (cancelFn env s).1
  | recancel {s : MState} (c : List String) :
      Reach s → Reach { s with cancelSet := c }

/-- The outcome condition type `end` designates for a plan whose VMs are
all completed: `Failed` when any VM has the `Failed` condition, else
`Succeeded` when any VM has the `Succeeded` condition, else `Canceled`. -/
def endOutcome (s : MState) : String :=
  if 0 < s.vms.countP (fun vm => hasCondition vm.conditions Failed) then
    Failed
  else if 0 < s.vms.countP (fun vm => hasCondition vm.conditions Succeeded)
  then Succeeded
  else Canceled

/-- The terminal-condition invariant of a VM status: each of `Succeeded`,
`Failed` and `Canceled` implies the terminal phase, `Succeeded` excludes
`Failed`, and `Succeeded` excludes `Canceled`. -/
def vmInv (vm : VMStatus) : Prop :=
  (hasCondition vm.conditions Succeeded = true → vm.phase = Completed)
  ∧ (hasCondition vm.conditions Failed = true → vm.phase = Completed)
  ∧ (hasCondition vm.conditions Canceled = true → vm.phase = Completed)
  ∧ ¬(hasCondition vm.conditions Succeeded = true
       ∧ hasCondition vm.conditions Failed = true)
  ∧ ¬(hasCondition vm.conditions Succeeded = true
       ∧ hasCondition vm.conditions Canceled = true)

/-- How the data-volume loop treats one observed data volume; determined
by the task names and the volume alone, independently of the updates the
loop has already made. -/
inductive DvClass
  | unmatched
  | blockedC (c : Condition)
  | idle
  | readyC (c : Condition)
  | runningC (c : Condition)
deriving DecidableEq, Repr

/-- Classify a data volume against the step's task names: unmatched,
blocked (Bound=False), idle (no Running condition), completing (Running
condition and Ready held) or running. -/
def classifyDv (resolve : DataVolume → String) (names : List String)
    (dv : DataVolume) : DvClass :=
  if resolve dv ∈ names then
    match dvBlocked dv with
    | some c => .blockedC c
    | none =>
      match findCondition dv.conditions Running with
      | none => .idle
      | some c =>
        if hasCondition dv.conditions Ready then .readyC c else .runningC c
  else .unmatched

/-- Whether a classification counts toward the blocked counter. -/
def isBlockedC : DvClass → Bool
  | .blockedC _ => true
  | _ => false

/-- Whether a classification counts toward the completed counter. -/
def isReadyC : DvClass → Bool
  | .readyC _ => true
  | _ => false

/-- Whether a classification counts toward the running counter (the
source increments it before the Ready check, so completing volumes count
too). -/
def isRunC : DvClass → Bool
  | .readyC _ => true
  | .runningC _ => true
  | _ => false

/-- Number of open (End=nil) pre-copy intervals. -/
def openCount (l : List Precopy) : Nat :=
  l.countP (fun p => p.End.isNone)

/-- The pre-copy interval list of a VM status, empty when the warm
substate is absent (as `updateWarmStatus` creates it empty). -/
def vmPrecopies (vm : VMStatus) : List Precopy :=
  match vm.warm with
  | some w => w.precopies
  | none => []

/-- Concrete VM status used by the C1 counterexample: a VM in phase
`CreateImport` with no errors and no conditions. -/
def c1vm : VMStatus := { ref := "vm-c1", phase := CreateImport }

/-- Concrete VM status used by the C1 amended-claim witness: a VM in
phase `ImportCreated` with a previously recorded error. -/
def c1wvm : VMStatus :=
  { ref := "vm-c1w", phase := ImportCreated, error := ["previous"] }

/-- Concrete VM status used by the C2 evaluation: a VM in the
unrecognized phase "Bogus". -/
def c2vm : VMStatus := { ref := "vm-c2", phase := "Bogus" }

/-- Concrete fresh plan state used by the C3 counterexample. -/
def c3state0 : MState := { specVMs := [{ ref := "vm-c3" }] }

/-- The C3 counterexample state: the result of a `begin` whose namespace
creation failed, which stamps `Executing` and returns an error before the
VM set is reconciled. -/
def c3state1 : MState := (beginFn { namespaceOk := false } c3state0).1

/-- Concrete plan state used by the C3 amended-claim witness. -/
def c3wstate : MState :=
  { specVMs := [{ ref := "vm-c3a" }, { ref := "vm-c3b", hooks := [PreHook] }] }

/-- Concrete plan state used by the C4 witness: one VM completed with the
`Succeeded` condition. -/
def c4wstate : MState :=
  { specVMs := [{ ref := "vm-c4" }]
    vms := [{ ref := "vm-c4", phase := Completed, completed := true,
              conditions := [{ type := Succeeded, status := True',
                               durable := true }] }]
    snapshot := [executingCondition] }

/-- Concrete VM status used by the C6 witness. -/
def c6vm : VMStatus :=
  { ref := "vm-c6", phase := ImportCreated,
    pipeline := [{ name := DiskTransfer, total := 7 }], error := [] }

/-- Concrete step used by the C7 counterexample: one DiskTransfer task. -/
def c7step : PStep :=
  { name := DiskTransfer, total := 5, tasks := [{ name := "t1", total := 5 }] }

/-- Concrete data volume used by the C7 counterexample: the Ready
condition is held but no Running condition is present. -/
def c7dv : DataVolume :=
  { dvId := "t1", conditions := [{ type := Ready, status := True' }] }

/-- Concrete VM status used by the C7 counterexample. -/
def c7vm : VMStatus :=
  { ref := "vm-c7", phase := ImportCreated, pipeline := [c7step] }

/-- Concrete import used by the C7 counterexample. -/
def c7imp : VmImport := { dataVolumes := [c7dv] }

/-- Concrete data volume used by the C7 amended-claim witness: Running
present and Ready held. -/
def c7wdv : DataVolume :=
  { dvId := "t1",
    conditions := [{ type := Running, status := True', reason := "ok" },
                   { type := Ready, status := True' }] }

/-- Concrete step used by the C7 amended-claim witness. -/
def c7wstep : PStep :=
  { name := DiskTransfer, total := 5, tasks := [{ name := "t1", total := 5 }] }

/-- Concrete import sequence used by the C8 witness: a CopyingStage
transition followed by a CopyingPaused transition. -/
def c8imps : List VmImport :=
  [{ warm := true,
     conditions := [{ type := Processing, status := True',
                      reason := CopyingStage, lastTransitionTime := 1 }] },
   { warm := true,
     conditions := [{ type := Processing, status := True',
                      reason := CopyingPaused, lastTransitionTime := 2 }] }]

/-- Concrete VM status used by the C8 witness. -/
def c8vm : VMStatus := { ref := "vm-c8" }

/-- Concrete import used by the C8 witness's per-call conjunct. -/
def c8imp : VmImport := (c8imps.get ⟨0, by decide⟩)

/-- Concrete VM status used by the C9 witness: phase `PreHook` with an
empty pipeline. -/
def c9vm : VMStatus := { ref := "vm-c9", phase := PreHook, hooks := [PreHook] }

/-- Concrete spec VM list used by the C5 witness. -/
def c5spec : List VM := [{ ref := "vm-c5" }]

/-- The C5 witness state: the state of a fresh plan after one `begin`. -/
def c5state : MState := (beginFn {} { specVMs := c5spec }).1

/-- The VM status the C5 witness inspects. -/
def c5wvm : VMStatus := c5state.vms.headD { ref := "" }

end Forklift

namespace VsphereModel

/-- A vSphere managed-object reference (`base.Ref`). -/
structure Ref where
  kind : String := ""
  id : String := ""
deriving DecidableEq, Repr

/-- The vSphere inventory Cluster model
(`pkg/controller/provider/model/vsphere`): the embedded `Base` (ID, name,
parent, revision) flattened, plus the cluster fields (source). -/
structure Cluster where
  id : String := ""
  name : String := ""
  parent : Ref := {}
  revision : Int := 0
  folder : String := ""
  hosts : List Ref := []
  networks : List Ref := []
  datastores : List Ref := []
  dasEnabled : Bool := false
  dasVms : List Ref := []
  drsEnabled : Bool := false
  drsBehavior : String := ""
  drsVms : List Ref := []
deriving DecidableEq, Repr

end VsphereModel

namespace VsphereWeb

/-- The shared REST resource part (`web/base.Resource`). Modelled from the
spec: the fields copied from the model's `Base` plus the self link. -/
structure Resource where
  id : String := ""
  name : String := ""
  selfLink : String := ""
deriving DecidableEq, Repr

/-- `Resource.With`: copy the base fields from the model. Modelled from
the spec. -/
def Resource.With (m : VsphereModel.Cluster) : Resource :=
  { id := m.id, name := m.name }

/-- The Cluster REST resource (`web/vsphere/cluster.go`, source). -/
structure Cluster where
  resource : Resource := {}
  folder : String := ""
  networks : List VsphereModel.Ref := []
  datastores : List VsphereModel.Ref := []
  hosts : List VsphereModel.Ref := []
  dasEnabled : Bool := false
  dasVms : List VsphereModel.Ref := []
  drsEnabled : Bool := false
  drsBehavior : String := ""
  drsVms : List VsphereModel.Ref := []
deriving DecidableEq, Repr

/-- `Cluster.With` (source, lines 161-172): build the REST resource from
the model, field assignments exactly as written there. -/
def Cluster.With (m : VsphereModel.Cluster) : Cluster :=
  { folder := m.folder
    resource := Resource.With m
    dasEnabled := m.dasEnabled
    drsEnabled := m.drsEnabled
    drsBehavior := m.drsBehavior
    networks := m.networks
    datastores := m.datastores
    hosts := m.hosts
    dasVms := m.dasVms
    drsVms := m.dasVms }

end VsphereWeb

namespace Forklift

theorem if_bool_not {P : Prop} [Decidable P] :
    ((if P then false else true) = true) ↔ ¬P := by
  by_cases h : P <;> simp [h]

theorem hasCondition_iff (l : List Condition) (t : String) :
    hasCondition l t = true ↔ ∃ c ∈ l, c.type = t ∧ c.status = True' := by
  simp [hasCondition, List.any_eq_true]

theorem hasCondition_nil (t : String) : hasCondition [] t = false := rfl

theorem hasCondition_setCondition (l : List Condition) (c : Condition)
    (t : String) :
    hasCondition (setCondition l c) t = true ↔
      ((c.type = t ∧ c.status = True')
        ∨ (t ≠ c.type ∧ hasCondition l t = true)) := by
  simp only [setCondition, hasCondition_iff, List.mem_append,
    List.mem_filter, List.mem_singleton, if_bool_not]
  constructor
  · rintro ⟨x, hx, hxt, hxs⟩
    rcases hx with ⟨hxl, hne⟩ | hxc
    · exact Or.inr ⟨by rw [← hxt]; exact hne, x, hxl, hxt, hxs⟩
    · subst hxc; exact Or.inl ⟨hxt, hxs⟩
  · rintro (⟨hct, hcs⟩ | ⟨hne, x, hxl, hxt, hxs⟩)
    · exact ⟨c, Or.inr rfl, hct, hcs⟩
    · exact ⟨x, Or.inl ⟨hxl, by rw [hxt]; exact hne⟩, hxt, hxs⟩

theorem hasCondition_setCondition_self (l : List Condition) (c : Condition)
    (hs : c.status = True') :
    hasCondition (setCondition l c) c.type = true := by
  rw [hasCondition_setCondition]
  exact Or.inl ⟨rfl, hs⟩

theorem hasCondition_setCondition_ne (l : List Condition) (c : Condition)
    (t : String) (h : t ≠ c.type) :
    hasCondition (setCondition l c) t = hasCondition l t := by
  by_cases hl : hasCondition l t = true
  · rw [hl, (hasCondition_setCondition l c t).2 (Or.inr ⟨h, hl⟩)]
  · simp only [Bool.not_eq_true] at hl
    rw [hl]
    by_contra hne
    simp only [Bool.not_eq_false] at hne
    rcases (hasCondition_setCondition l c t).1 hne with ⟨hct, _⟩ | ⟨_, hlt⟩
    · exact h hct.symm
    · rw [hlt] at hl; cases hl

theorem hasCondition_deleteCondition (l : List Condition) (ts : List String)
    (t : String) :
    hasCondition (deleteCondition l ts) t = true ↔
      (t ∉ ts ∧ hasCondition l t = true) := by
  simp only [deleteCondition, hasCondition_iff, List.mem_filter, if_bool_not]
  constructor
  · rintro ⟨x, ⟨hxl, hxts⟩, hxt, hxs⟩
    exact ⟨by rw [← hxt]; exact hxts, x, hxl, hxt, hxs⟩
  · rintro ⟨hts, x, hxl, hxt, hxs⟩
    exact ⟨x, ⟨hxl, by rw [hxt]; exact hts⟩, hxt, hxs⟩

theorem hasCondition_markReset_imp (l : List Condition) (t : String) :
    hasCondition (markResetConditions l) t = true →
      hasCondition l t = true := by
  simp only [markResetConditions, hasCondition_iff, List.mem_filter]
  rintro ⟨x, ⟨hxl, _⟩, hxt, hxs⟩
  exact ⟨x, hxl, hxt, hxs⟩

theorem hasAnyCondition_false (l : List Condition) (ts : List String)
    (h : hasAnyCondition l ts = false) :
    ∀ t ∈ ts, hasCondition l t = false := by
  intro t ht
  simp only [hasAnyCondition, List.any_eq_false] at h
  simpa using h t ht

/-- C10: the REST resource built by `Cluster.With` carries the model's
`DasVms` in its `DrsVms` field rather than the model's `DrsVms`, so two
models that differ only in `DrsVms` build identical REST resources. -/
theorem c10_cluster_with_drsvms (m : VsphereModel.Cluster)
    (v : List VsphereModel.Ref) :
    (VsphereWeb.Cluster.With m).drsVms = m.dasVms
    ∧ VsphereWeb.Cluster.With { m with drsVms := v } =
        VsphereWeb.Cluster.With m :=
  ⟨rfl, rfl⟩

/-- C2: evaluation of `step` at a VM in the unrecognized phase "Bogus":
the phase is overwritten with `Completed` before the error message is
formatted, so the recorded message names `Completed`, not the original
phase value. -/
theorem c2_unknown_phase_message :
    (stepFn [] {} c2vm).1.error = ["Phase [Completed] unknown"]
    ∧ (stepFn [] {} c2vm).1.phase = Completed := by
  constructor <;> rfl

end Forklift

namespace Forklift

/-- C6: for a VM whose ref is in the migration's cancel set, `step` sets
the durable `Canceled` condition and the `Completed` phase and returns,
changing nothing else: the error list and pipeline are those of the
input, no error is returned, and the `Succeeded`/`Failed` conditions are
exactly as before. -/
theorem c6_cancel_frame (cancelSet : List String) (env : StepEnv)
    (vm : VMStatus) (hc : vm.ref ∈ cancelSet) :
    stepFn cancelSet env vm =
      ({ vm with
         conditions := setCondition vm.conditions canceledCondition
         phase := Completed }, none)
    ∧ canceledCondition.durable = true
    ∧ hasCondition (setCondition vm.conditions canceledCondition) Canceled
        = true
    ∧ hasCondition (setCondition vm.conditions canceledCondition) Succeeded
        = hasCondition vm.conditions Succeeded
    ∧ hasCondition (setCondition vm.conditions canceledCondition) Failed
        = hasCondition vm.conditions Failed := by
  refine ⟨by simp [stepFn, hc], rfl, ?_, ?_, ?_⟩
  · exact hasCondition_setCondition_self _ _ rfl
  · exact hasCondition_setCondition_ne _ _ _ (by decide)
  · exact hasCondition_setCondition_ne _ _ _ (by decide)

/-- C6 witness: the theorem applied to a concrete canceled VM. -/
theorem c6_cancel_frame_witness :
    stepFn ["vm-c6"] {} c6vm =
      ({ c6vm with
         conditions := setCondition c6vm.conditions canceledCondition
         phase := Completed }, none)
    ∧ canceledCondition.durable = true
    ∧ hasCondition (setCondition c6vm.conditions canceledCondition) Canceled
        = true
    ∧ hasCondition (setCondition c6vm.conditions canceledCondition) Succeeded
        = hasCondition c6vm.conditions Succeeded
    ∧ hasCondition (setCondition c6vm.conditions canceledCondition) Failed
        = hasCondition c6vm.conditions Failed :=
  c6_cancel_frame ["vm-c6"] {} c6vm (by decide)

/-- C1 counterexample: a VM in phase `CreateImport` whose `EnsureImport`
fails with a non-ProviderNotReady error. The error is recorded and
swallowed, but in the same `step` call the post-switch stamping sets the
phase to `Completed` and stamps the `Failed` condition, contradicting the
claim that such a VM does not become terminal. -/
theorem c1_counterexample :
    (stepFn [] { ensure := .failed "inventory error" } c1vm).1.phase
        = Completed
    ∧ hasCondition
        (stepFn [] { ensure := .failed "inventory error" } c1vm).1.conditions
        Failed = true
    ∧ (stepFn [] { ensure := .failed "inventory error" } c1vm).1.error
        = ["inventory error"]
    ∧ (stepFn [] { ensure := .failed "inventory error" } c1vm).2 = none := by
  exact ⟨rfl, rfl, rfl, rfl⟩

/-- C1 (amended): for a VM in phase `CreateImport` or `ImportCreated`
whose `EnsureImport` fails with an error that is not ProviderNotReady,
`step` records the error on the VMStatus error list and returns no error
to the caller, but the VM becomes terminal in that same call: the
post-switch stamping sets its phase to `Completed` and stamps the
`Failed` condition. -/
theorem c1_amended_error_is_terminal (cancelSet : List String)
    (env : StepEnv) (vm : VMStatus) (m : String)
    (hph : vm.phase = CreateImport ∨ vm.phase = ImportCreated)
    (hc : vm.ref ∉ cancelSet)
    (he : env.ensure = .failed m) :
    stepFn cancelSet env vm =
      ({ vm with
         phase := Completed
         error := vm.error ++ [m]
         conditions := setCondition vm.conditions failedCondition }, none) := by
  rcases hph with h | h <;>
    simp [stepFn, stepSwitch, hc, h, he, addError, reflectPipeline, stampFn,
      CreateImport, ImportCreated, Started, PreHook, PostHook, Completed]

/-- C1 witness: the amended theorem applied to a concrete VM in phase
`ImportCreated` with a prior error. -/
theorem c1_amended_witness :
    stepFn [] { ensure := .failed "boom" } c1wvm =
      ({ c1wvm with
         phase := Completed
         error := c1wvm.error ++ ["boom"]
         conditions := setCondition c1wvm.conditions failedCondition },
       none) :=
  c1_amended_error_is_terminal [] { ensure := .failed "boom" } c1wvm "boom"
    (Or.inr rfl) (by decide) rfl

/-- C9: for a VM in phase `PreHook` or `PostHook` whose pipeline has no
step named for that phase, when the hook runner returns no error, `step`
sets the phase directly to `Completed` without touching the error list
and returns no error; the post-switch stamping then marks the VM
`Succeeded` when its error list is empty. -/
theorem c9_hook_no_step (cancelSet : List String) (env : StepEnv)
    (vm : VMStatus)
    (hph : vm.phase = PreHook ∨ vm.phase = PostHook)
    (hc : vm.ref ∉ cancelSet)
    (hhe : env.hookErr = none)
    (hfs : findStep vm.pipeline vm.phase = none) :
    (stepFn cancelSet env vm).2 = none
    ∧ (stepFn cancelSet env vm).1.phase = Completed
    ∧ (stepFn cancelSet env vm).1.error = vm.error
    ∧ (vm.error = [] →
        hasCondition (stepFn cancelSet env vm).1.conditions Succeeded
          = true) := by
  have hhook : hookRun env vm = vm := by
    simp [hookRun, hfs]
  have hsw : stepSwitch env vm = .fall { vm with phase := Completed } := by
    rcases hph with h | h <;> rw [h] at hfs <;>
      simp +decide [stepSwitch, h, hhook, hhe, hfs]
  by_cases herr : vm.error = []
  · refine ⟨?_, ?_, ?_, ?_⟩ <;>
      simp [stepFn, hc, hsw, reflectPipeline, stampFn, herr]
    exact hasCondition_setCondition_self vm.conditions succeededCondition rfl
  · refine ⟨?_, ?_, ?_, ?_⟩ <;>
      simp [stepFn, hc, hsw, reflectPipeline, stampFn, herr]

/-- C9 witness: the theorem applied to a concrete hook-phase VM with an
empty pipeline. -/
theorem c9_hook_no_step_witness :
    (stepFn [] {} c9vm).2 = none
    ∧ (stepFn [] {} c9vm).1.phase = Completed
    ∧ (stepFn [] {} c9vm).1.error = c9vm.error
    ∧ (c9vm.error = [] →
        hasCondition (stepFn [] {} c9vm).1.conditions Succeeded = true) :=
  c9_hook_no_step [] {} c9vm (Or.inl rfl) (by decide) rfl rfl

end Forklift

namespace Forklift

theorem chooseStatus_ref (cur : List VMStatus) (vm : VM) :
    (chooseStatus cur vm).ref = vm.ref := by
  unfold chooseStatus
  cases hf : findVMStatus cur vm.ref with
  | none => rfl
  | some c =>
    have h0 : List.find? (fun st => decide (st.ref = vm.ref)) cur = some c := by
      simpa [findVMStatus] using hf
    have h1 := List.find?_some h0
    show c.ref = vm.ref
    simpa using h1

theorem addUpdateLoop_refs (env : BeginEnv) (spec : List VM) :
    ∀ (cur out : List VMStatus),
      (addUpdateLoop env spec cur out).2.2 = false →
      (addUpdateLoop env spec cur out).2.1.map (fun st => st.ref) =
        out.map (fun st => st.ref) ++ spec.map (fun vm => vm.ref) := by
  induction spec with
  | nil => intro cur out _; simp [addUpdateLoop]
  | cons vm rest ih =>
    intro cur out h
    rw [addUpdateLoop] at h ⊢
    by_cases hcond : (chooseStatus cur vm).phase ≠ Completed
      ∨ hasAnyCondition (chooseStatus cur vm).conditions [Canceled, Failed]
    · rw [if_pos hcond] at h ⊢
      cases hbp : buildPipelineFn env vm with
      | none => rw [hbp] at h; simp at h
      | some pipeline =>
        rw [hbp] at h
        dsimp only at h ⊢
        rw [ih _ _ h]
        simp [rebuildStatus, chooseStatus_ref]
    · rw [if_neg hcond] at h ⊢
      rw [ih _ _ h]
      simp [chooseStatus_ref]

/-- C3 counterexample: a fresh one-VM plan whose first `begin` fails at
namespace creation after stamping `Executing`. The next `begin` call
short-circuits, returns no error, and leaves the status VM list empty
even though the spec lists one VM. -/
theorem c3_counterexample :
    (beginFn {} c3state1).2 = false
    ∧ (beginFn {} c3state1).1.vms.map (fun st => st.ref) = []
    ∧ c3state1.specVMs.map (fun vm => vm.ref) = ["vm-c3"] := by
  exact ⟨rfl, rfl, rfl⟩

/-- C3 (amended): immediately after a `begin` call that returns no error
and that was not short-circuited (the active snapshot had none of the
Executing/Succeeded/Failed/Canceled conditions), the status VM list has
exactly one VMStatus per VM reference in the plan spec, same refs, in
plan-spec order; a short-circuited `begin` leaves the plan state
unchanged instead. -/
theorem c3_amended_begin_refs (env : BeginEnv) (s : MState)
    (hsn : hasAnyCondition s.snapshot [Executing, Succeeded, Failed, Canceled]
      = false)
    (hok : (beginFn env s).2 = false) :
    (beginFn env s).1.vms.map (fun st => st.ref) =
      s.specVMs.map (fun vm => vm.ref) := by
  rw [beginFn] at hok ⊢
  rw [if_neg (by simp [hsn])] at hok ⊢
  by_cases hns : env.namespaceOk
  · rw [if_neg (by simpa using hns)] at hok ⊢
    by_cases hinv : (List.any s.vms fun st => decide ¬env.inventoryOk st.ref)
      = true
    · rw [if_pos (by simpa using hinv)] at hok; cases hok
    · rw [if_neg (by simpa using hinv)] at hok ⊢
      by_cases hbad : (addUpdateLoop env s.specVMs
          (s.vms.filter fun st => s.specVMs.any fun vm => vm.ref = st.ref)
          []).2.2 = true
      · simp only [hbad, if_true] at hok; cases hok
      · simp only [Bool.not_eq_true] at hbad
        simp only [hbad, if_false]
        simpa using addUpdateLoop_refs env s.specVMs _ [] hbad
  · rw [if_pos (by simpa using hns)] at hok; cases hok

/-- C3 witness: the amended theorem applied to a fresh two-VM plan. -/
theorem c3_amended_witness :
    (beginFn {} c3wstate).1.vms.map (fun st => st.ref) =
      c3wstate.specVMs.map (fun vm => vm.ref) :=
  c3_amended_begin_refs {} c3wstate rfl rfl

end Forklift

namespace Forklift

theorem hasCondition_deleteCondition_false (l : List Condition)
    (ts : List String) (t : String) (h : hasCondition l t = false) :
    hasCondition (deleteCondition l ts) t = false := by
  by_contra hc
  simp only [Bool.not_eq_false] at hc
  rcases (hasCondition_deleteCondition l ts t).1 hc with ⟨_, hlt⟩
  rw [hlt] at h; cases h

theorem hasCondition_deleteCondition_mem (l : List Condition)
    (ts : List String) (t : String) (ht : t ∈ ts) :
    hasCondition (deleteCondition l ts) t = false := by
  by_contra hc
  simp only [Bool.not_eq_false] at hc
  rcases (hasCondition_deleteCondition l ts t).1 hc with ⟨hnot, _⟩
  exact hnot ht

theorem hasCondition_setCondition_false (l : List Condition) (c : Condition)
    (t : String) (hne : t ≠ c.type) (h : hasCondition l t = false) :
    hasCondition (setCondition l c) t = false := by
  rw [hasCondition_setCondition_ne l c t hne]; exact h

/-- C4: when every VM in the plan status is marked completed, `end`
reports completed, stamps the active snapshot with exactly the designated
outcome condition (`Failed` when some VM has the `Failed` condition, else
`Succeeded` when some has `Succeeded`, else `Canceled`), deletes the
`Executing` condition, and invokes `Cancel` exactly in the `Failed` case;
when some VM is not marked completed it reports not-completed and changes
nothing. The hypothesis that the snapshot does not already hold an
outcome condition reflects `begin`'s guard. -/
theorem c4_end_outcome (env : EndEnv) (s : MState)
    (hno : hasAnyCondition s.snapshot [Failed, Succeeded, Canceled] = false) :
    ((∀ vm ∈ s.vms, vm.completed = true) →
       (endFn env s).2.1 = true
       ∧ hasCondition (endFn env s).1.snapshot (endOutcome s) = true
       ∧ (∀ t ∈ [Failed, Succeeded, Canceled],
            t ≠ endOutcome s →
              hasCondition (endFn env s).1.snapshot t = false)
       ∧ hasCondition (endFn env s).1.snapshot Executing = false
       ∧ (0 < s.vms.countP (fun vm => hasCondition vm.conditions Failed) →
            (endFn env s).1.vms = (cancelLoop env s.vms).1)
       ∧ (s.vms.countP (fun vm => hasCondition vm.conditions Failed) = 0 →
            (endFn env s).1.vms = s.vms))
    ∧ ((∃ vm ∈ s.vms, vm.completed = false) →
        endFn env s = (s, false, false)) := by
  have hfe : ∀ t ∈ ([Failed, Succeeded, Canceled] : List String),
      hasCondition (deleteCondition s.snapshot [Executing]) t = false :=
    fun t ht => hasCondition_deleteCondition_false _ _ _
      (hasAnyCondition_false _ _ hno t ht)
  have hexe : hasCondition (deleteCondition s.snapshot [Executing]) Executing
      = false :=
    hasCondition_deleteCondition_mem _ _ _ (by simp)
  constructor
  · intro hall
    have hany : (s.vms.any fun vm => ¬ vm.completed) = false := by
      simp only [List.any_eq_false]
      intro vm hvm
      simp [hall vm hvm]
    rw [endFn, if_neg (by simpa using hany)]
    by_cases hfail :
        0 < s.vms.countP (fun vm => hasCondition vm.conditions Failed)
    · rw [if_pos hfail]
      have hout : endOutcome s = Failed := by rw [endOutcome, if_pos hfail]
      refine ⟨rfl, ?_, ?_, ?_, ?_, ?_⟩
      · rw [hout]
        simp only [cancelFn]
        exact hasCondition_setCondition_self _ planFailedCondition rfl
      · intro t ht hne
        rw [hout] at hne
        simp only [cancelFn]
        rcases (by simpa using ht :
            t = Failed ∨ t = Succeeded ∨ t = Canceled) with rfl | rfl | rfl
        · exact absurd rfl hne
        · exact hasCondition_setCondition_false _ _ _ (by decide)
            (hfe Succeeded (by simp))
        · exact hasCondition_setCondition_false _ _ _ (by decide)
            (hfe Canceled (by simp))
      · simp only [cancelFn]
        exact hasCondition_setCondition_false _ _ _ (by decide) hexe
      · intro _; simp [cancelFn]
      · intro hz; rw [hz] at hfail; cases hfail
    · rw [if_neg hfail]
      have hz : s.vms.countP (fun vm => hasCondition vm.conditions Failed)
          = 0 := by omega
      by_cases hsuc :
          0 < s.vms.countP (fun vm => hasCondition vm.conditions Succeeded)
      · rw [if_pos hsuc]
        have hout : endOutcome s = Succeeded := by
          rw [endOutcome, if_neg hfail, if_pos hsuc]
        refine ⟨rfl, ?_, ?_, ?_, ?_, ?_⟩
        · rw [hout]
          exact hasCondition_setCondition_self _ planSucceededCondition rfl
        · intro t ht hne
          rw [hout] at hne
          rcases (by simpa using ht :
              t = Failed ∨ t = Succeeded ∨ t = Canceled) with rfl | rfl | rfl
          · exact hasCondition_setCondition_false _ _ _ (by decide)
              (hfe Failed (by simp))
          · exact absurd rfl hne
          · exact hasCondition_setCondition_false _ _ _ (by decide)
              (hfe Canceled (by simp))
        · exact hasCondition_setCondition_false _ _ _ (by decide) hexe
        · intro hpos; exact absurd hpos hfail
        · intro _; rfl
      · rw [if_neg hsuc]
        have hout : endOutcome s = Canceled := by
          rw [endOutcome, if_neg hfail, if_neg hsuc]
        refine ⟨rfl, ?_, ?_, ?_, ?_, ?_⟩
        · rw [hout]
          exact hasCondition_setCondition_self _ planCanceledCondition rfl
        · intro t ht hne
          rw [hout] at hne
          rcases (by simpa using ht :
              t = Failed ∨ t = Succeeded ∨ t = Canceled) with rfl | rfl | rfl
          · exact hasCondition_setCondition_false _ _ _ (by decide)
              (hfe Failed (by simp))
          · exact hasCondition_setCondition_false _ _ _ (by decide)
              (hfe Succeeded (by simp))
          · exact absurd rfl hne
        · exact hasCondition_setCondition_false _ _ _ (by decide) hexe
        · intro hpos; exact absurd hpos hfail
        · intro _; rfl
  · rintro ⟨vm, hvm, hnc⟩
    have hany : (s.vms.any fun vm => ¬ vm.completed) = true := by
      simp only [List.any_eq_true]
      exact ⟨vm, hvm, by simp [hnc]⟩
    rw [endFn, if_pos (by simpa using hany)]

/-- C4 witness: the theorem applied to a plan whose single VM completed
with the `Succeeded` condition. -/
theorem c4_end_outcome_witness :
    (endFn {} c4wstate).2.1 = true
    ∧ hasCondition (endFn {} c4wstate).1.snapshot (endOutcome c4wstate) = true
    ∧ hasCondition (endFn {} c4wstate).1.snapshot Executing = false :=
  let h := (c4_end_outcome {} c4wstate (by decide)).1 (by decide)
  ⟨h.1, h.2.1, h.2.2.2.1⟩

end Forklift

namespace Forklift

theorem lastOpen_nil : lastOpen [] = false := rfl

theorem lastOpen_ne_nil (l : List Precopy) (h : lastOpen l = true) :
    l ≠ [] := by
  intro hn; rw [hn] at h; cases h

theorem lastOpen_concat (l : List Precopy) (p : Precopy) :
    lastOpen (l ++ [p]) = p.End.isNone := by
  simp [lastOpen, List.getLast?_concat]

theorem openCount_concat (l : List Precopy) (p : Precopy) :
    openCount (l ++ [p]) = openCount l + (if p.End.isNone then 1 else 0) := by
  simp [openCount, List.countP_append, List.countP_cons]

theorem closeLast_concat (l : List Precopy) (p : Precopy) (t : Nat) :
    closeLast (l ++ [p]) t = l ++ [{ p with End := some t }] := by
  simp [closeLast, List.getLast?_concat, List.dropLast_concat]

theorem precopyUpdate_inv (l : List Precopy) (c : Option Condition)
    (h : openCount l = (if lastOpen l then 1 else 0)) :
    openCount (precopyUpdate l c) =
      (if lastOpen (precopyUpdate l c) then 1 else 0) := by
  cases c with
  | none => exact h
  | some c =>
    rw [precopyUpdate]
    by_cases h1 : c.reason = CopyingStage
    · rw [if_pos h1]
      by_cases h2 : l = [] ∨ ¬ lastOpen l
      · rw [if_pos h2]
        have hlo : lastOpen l = false := by
          rcases h2 with rfl | h2
          · exact lastOpen_nil
          · simpa using h2
        rw [openCount_concat, lastOpen_concat]
        rw [hlo, if_neg (by simp)] at h
        simp [h]
      · rw [if_neg h2]; exact h
    · rw [if_neg h1]
      by_cases h3 : c.reason = CopyingPaused
      · rw [if_pos h3]
        by_cases h4 : l ≠ [] ∧ lastOpen l = true
        · rw [if_pos h4]
          induction l using List.reverseRecOn with
          | nil => exact absurd rfl h4.1
          | append_singleton l0 p _ =>
            rw [closeLast_concat]
            rw [openCount_concat, lastOpen_concat] at h ⊢
            have hp : p.End.isNone = true := by
              have := h4.2
              rwa [lastOpen_concat] at this
            rw [hp, if_pos rfl] at h
            have h0 : openCount l0 = 0 := by omega
            simp [h0]
        · rw [if_neg h4]; exact h
      · rw [if_neg h3]; exact h

theorem updateWarmStatusFn_precopies (vm : VMStatus) (imp : VmImport) :
    vmPrecopies (updateWarmStatusFn vm imp) =
      precopyUpdate (vmPrecopies vm)
        (findCondition imp.conditions Processing) := by
  cases hw : vm.warm <;> simp [updateWarmStatusFn, vmPrecopies, hw]

theorem warm_fold_inv (imps : List VmImport) :
    ∀ (vm : VMStatus),
      openCount (vmPrecopies vm) = (if lastOpen (vmPrecopies vm) then 1 else 0)
      → openCount (vmPrecopies (imps.foldl updateWarmStatusFn vm)) =
          (if lastOpen (vmPrecopies (imps.foldl updateWarmStatusFn vm)) then 1
           else 0) := by
  induction imps with
  | nil => intro vm h; exact h
  | cons imp rest ih =>
    intro vm h
    rw [List.foldl_cons]
    refine ih _ ?_
    rw [updateWarmStatusFn_precopies]
    exact precopyUpdate_inv _ _ h

/-- C8: starting from a VM without a warm substate, any sequence of
`updateWarmStatus` calls leaves at most one open (End=nil) pre-copy
interval; and each call modifies the interval list exactly as claimed:
an observed Processing reason `CopyingStage` appends a new open interval
carrying the condition's last-transition-time when the list is empty or
its last interval is closed (and otherwise leaves it unchanged), reason
`CopyingPaused` sets the End of the last interval when it is open (and
otherwise leaves it unchanged), and every other reason leaves the list
unchanged. -/
theorem c8_warm_precopies :
    (∀ (imps : List VmImport) (vm : VMStatus), vm.warm = none →
       openCount (vmPrecopies (imps.foldl updateWarmStatusFn vm)) ≤ 1)
    ∧ (∀ (vm : VMStatus) (imp : VmImport) (c : Condition),
        findCondition imp.conditions Processing = some c →
        (c.reason = CopyingStage →
           ((vmPrecopies vm = [] ∨ ¬ lastOpen (vmPrecopies vm)) →
              vmPrecopies (updateWarmStatusFn vm imp) =
                vmPrecopies vm ++ [{ start := some c.lastTransitionTime }])
           ∧ (lastOpen (vmPrecopies vm) = true →
              vmPrecopies (updateWarmStatusFn vm imp) = vmPrecopies vm))
        ∧ (c.reason = CopyingPaused →
           (lastOpen (vmPrecopies vm) = true →
              vmPrecopies (updateWarmStatusFn vm imp) =
                closeLast (vmPrecopies vm) c.lastTransitionTime)
           ∧ (lastOpen (vmPrecopies vm) = false →
              vmPrecopies (updateWarmStatusFn vm imp) = vmPrecopies vm))
        ∧ (c.reason ≠ CopyingStage → c.reason ≠ CopyingPaused →
            vmPrecopies (updateWarmStatusFn vm imp) = vmPrecopies vm)) := by
  constructor
  · intro imps vm hw
    have h0 : openCount (vmPrecopies vm) =
        (if lastOpen (vmPrecopies vm) then 1 else 0) := by
      simp [vmPrecopies, hw, openCount, lastOpen]
    have h := warm_fold_inv imps vm h0
    rw [h]
    by_cases hl : lastOpen (vmPrecopies (imps.foldl updateWarmStatusFn vm))
    · rw [if_pos hl]
    · rw [if_neg hl]; omega
  · intro vm imp c hfc
    rw [updateWarmStatusFn_precopies, hfc]
    refine ⟨?_, ?_, ?_⟩
    · intro hr
      constructor
      · intro hg
        rw [precopyUpdate, if_pos hr, if_pos hg]
      · intro hl
        rw [precopyUpdate, if_pos hr,
          if_neg (by
            rintro (hnil | hno)
            · exact lastOpen_ne_nil _ hl hnil
            · exact hno hl)]
    · intro hr
      have hr1 : c.reason ≠ CopyingStage := by
        rw [hr]; decide
      constructor
      · intro hl
        rw [precopyUpdate, if_neg hr1, if_pos hr,
          if_pos ⟨lastOpen_ne_nil _ hl, hl⟩]
      · intro hl
        rw [precopyUpdate, if_neg hr1, if_pos hr,
          if_neg (by
            rintro ⟨_, hlo⟩
            rw [hl] at hlo; cases hlo)]
    · intro h1 h2
      rw [precopyUpdate, if_neg h1, if_neg h2]

/-- C8 witness: the theorem applied to a concrete CopyingStage then
CopyingPaused sequence and to the first call of that sequence. -/
theorem c8_warm_precopies_witness :
    openCount (vmPrecopies (c8imps.foldl updateWarmStatusFn c8vm)) ≤ 1
    ∧ vmPrecopies (updateWarmStatusFn c8vm c8imp) =
        vmPrecopies c8vm ++ [{ start := some 1 }] := by
  refine ⟨c8_warm_precopies.1 c8imps c8vm rfl, ?_⟩
  have h := ((c8_warm_precopies.2 c8vm c8imp
    { type := Processing, status := True', reason := CopyingStage,
      lastTransitionTime := 1 } rfl).1 rfl).1 (Or.inl rfl)
  simpa using h

end Forklift

namespace Forklift

theorem runUpd_name (dv : DataVolume) (c : Condition) (t : Task) :
    (runUpd dv c t).name = t.name := by
  rw [runUpd]
  by_cases h : hasCondition dv.conditions Ready = true
  · rw [if_pos h]
  · rw [if_neg (by simpa using h)]

theorem updateFirstTask_names (ts : List Task) (n : String) (f : Task → Task)
    (hf : ∀ t, (f t).name = t.name) :
    (updateFirstTask ts n f).map (fun t => t.name) =
      ts.map (fun t => t.name) := by
  induction ts with
  | nil => rfl
  | cons t rest ih =>
    rw [updateFirstTask]
    by_cases h : t.name = n
    · rw [if_pos h]; simp [hf]
    · rw [if_neg h]; simp [ih]

theorem findTask_isSome_iff (ts : List Task) (n : String) :
    (findTask ts n).isSome = true ↔ n ∈ ts.map (fun t => t.name) := by
  rw [findTask, List.find?_isSome]
  simp [eq_comm]

theorem findTask_cons_pos (t : Task) (rest : List Task) (n : String)
    (h : t.name = n) : findTask (t :: rest) n = some t := by
  simp [findTask, List.find?_cons, h]

theorem findTask_cons_neg (t : Task) (rest : List Task) (n : String)
    (h : ¬ t.name = n) : findTask (t :: rest) n = findTask rest n := by
  simp [findTask, List.find?_cons, h]

theorem findTask_updateFirstTask_ne (ts : List Task) (n m : String)
    (f : Task → Task) (hf : ∀ t, (f t).name = t.name) (hnm : m ≠ n) :
    findTask (updateFirstTask ts n f) m = findTask ts m := by
  induction ts with
  | nil => rfl
  | cons t rest ih =>
    rw [updateFirstTask]
    by_cases h : t.name = n
    · rw [if_pos h]
      have hm : ¬ (f t).name = m := by
        rw [hf t, h]; exact fun he => hnm he.symm
      have hm2 : ¬ t.name = m := by
        rw [h]; exact fun he => hnm he.symm
      rw [findTask_cons_neg _ _ _ hm, findTask_cons_neg _ _ _ hm2]
    · rw [if_neg h]
      by_cases h2 : t.name = m
      · rw [findTask_cons_pos _ _ _ h2, findTask_cons_pos _ _ _ h2]
      · rw [findTask_cons_neg _ _ _ h2, findTask_cons_neg _ _ _ h2]
        exact ih

theorem findTask_updateFirstTask_eq (ts : List Task) (n : String) (t : Task)
    (f : Task → Task) (hf : ∀ u, (f u).name = u.name)
    (hft : findTask ts n = some t) :
    findTask (updateFirstTask ts n f) n = some (f t) := by
  induction ts with
  | nil => cases hft
  | cons u rest ih =>
    rw [updateFirstTask]
    by_cases h : u.name = n
    · rw [if_pos h]
      rw [findTask_cons_pos _ _ _ h] at hft
      cases hft
      exact findTask_cons_pos _ _ _ (by rw [hf]; exact h)
    · rw [if_neg h]
      rw [findTask_cons_neg _ _ _ h] at hft
      rw [findTask_cons_neg _ _ _ h]
      exact ih hft

theorem processDv_counts (resolve : DataVolume → String) (a : DvAcc)
    (dv : DataVolume) :
    ((processDv resolve a dv).blocked = a.blocked +
        (if isBlockedC (classifyDv resolve (a.tasks.map (fun t => t.name)) dv)
         then 1 else 0))
    ∧ ((processDv resolve a dv).completedN = a.completedN +
        (if isReadyC (classifyDv resolve (a.tasks.map (fun t => t.name)) dv)
         then 1 else 0))
    ∧ ((processDv resolve a dv).running = a.running +
        (if isRunC (classifyDv resolve (a.tasks.map (fun t => t.name)) dv)
         then 1 else 0))
    ∧ (processDv resolve a dv).tasks.map (fun t => t.name) =
        a.tasks.map (fun t => t.name) := by
  rw [processDv, classifyDv]
  cases hft : findTask a.tasks (resolve dv) with
  | none =>
    have hmem : ¬ (resolve dv ∈ a.tasks.map (fun t => t.name)) := by
      rw [← findTask_isSome_iff, hft]
      simp
    rw [if_neg hmem]
    simp [isBlockedC, isReadyC, isRunC]
  | some t =>
    have hmem : resolve dv ∈ a.tasks.map (fun t => t.name) := by
      rw [← findTask_isSome_iff, hft]; rfl
    rw [if_pos hmem]
    cases hb : dvBlocked dv with
    | some c =>
      refine ⟨by simp [isBlockedC], by simp [isReadyC], by simp [isRunC], ?_⟩
      exact updateFirstTask_names _ _ _ (fun u => rfl)
    | none =>
      cases hr : findCondition dv.conditions Running with
      | none => simp [isBlockedC, isReadyC, isRunC]
      | some c =>
        by_cases hready : hasCondition dv.conditions Ready = true
        · rw [if_pos hready]
          refine ⟨by simp [isBlockedC, hready], by simp [isReadyC, hready],
            by simp [isRunC, hready], ?_⟩
          exact updateFirstTask_names _ _ _ (fun u => runUpd_name dv c u)
        · rw [if_neg hready]
          have hready' : hasCondition dv.conditions Ready = false := by
            simpa using hready
          refine ⟨by simp [isBlockedC, hready'], ?_,
            by simp [isRunC, hready'], ?_⟩
          · simp [isReadyC, hready']
          · exact updateFirstTask_names _ _ _ (fun u => runUpd_name dv c u)

theorem foldl_processDv_counts (resolve : DataVolume → String)
    (dvs : List DataVolume) :
    ∀ (a : DvAcc),
      ((dvs.foldl (processDv resolve) a).blocked = a.blocked +
          dvs.countP (fun d =>
            isBlockedC (classifyDv resolve (a.tasks.map (fun t => t.name)) d)))
      ∧ ((dvs.foldl (processDv resolve) a).completedN = a.completedN +
          dvs.countP (fun d =>
            isReadyC (classifyDv resolve (a.tasks.map (fun t => t.name)) d)))
      ∧ ((dvs.foldl (processDv resolve) a).running = a.running +
          dvs.countP (fun d =>
            isRunC (classifyDv resolve (a.tasks.map (fun t => t.name)) d)))
      ∧ (dvs.foldl (processDv resolve) a).tasks.map (fun t => t.name) =
          a.tasks.map (fun t => t.name) := by
  induction dvs with
  | nil => intro a; simp
  | cons dv rest ih =>
    intro a
    rw [List.foldl_cons]
    obtain ⟨hb, hc, hr, hn⟩ := processDv_counts resolve a dv
    obtain ⟨ihb, ihc, ihr, ihn⟩ := ih (processDv resolve a dv)
    rw [hn] at ihb ihc ihr ihn
    refine ⟨?_, ?_, ?_, by rw [ihn]⟩
    · rw [ihb, hb, List.countP_cons]; omega
    · rw [ihc, hc, List.countP_cons]; omega
    · rw [ihr, hr, List.countP_cons]; omega

theorem foldl_processDv_skip (resolve : DataVolume → String)
    (dvs : List DataVolume) (n : String)
    (hall : ∀ d ∈ dvs, resolve d ≠ n) :
    ∀ a, findTask ((dvs.foldl (processDv resolve) a).tasks) n =
      findTask a.tasks n := by
  induction dvs with
  | nil => intro a; rfl
  | cons dv rest ih =>
    intro a
    rw [List.foldl_cons]
    rw [ih (fun d hd => hall d (List.mem_cons_of_mem _ hd))]
    have hne : n ≠ resolve dv :=
      fun he => hall dv (List.mem_cons_self _ _) he.symm
    rw [processDv]
    cases hft : findTask a.tasks (resolve dv) with
    | none => rfl
    | some t =>
      cases hbk : dvBlocked dv with
      | some c =>
        exact findTask_updateFirstTask_ne _ _ _ _ (fun u => rfl) hne
      | none =>
        cases hrn : findCondition dv.conditions Running with
        | none => rfl
        | some c =>
          exact findTask_updateFirstTask_ne _ _ _ _
            (fun u => runUpd_name dv c u) hne

theorem processDv_hit (resolve : DataVolume → String) (a : DvAcc)
    (dv : DataVolume) (t : Task) (c : Condition)
    (hres : findTask a.tasks (resolve dv) = some t)
    (hnb : dvBlocked dv = none)
    (hrun : findCondition dv.conditions Running = some c)
    (hready : hasCondition dv.conditions Ready = true) :
    findTask (processDv resolve a dv).tasks (resolve dv) =
      some { t with
             started := true
             phase := Running
             reason := c.reason
             completedP := t.total
             completed := true } := by
  rw [processDv, hres, hnb, hrun]
  dsimp only
  rw [findTask_updateFirstTask_eq _ _ t _ (fun u => runUpd_name dv c u) hres]
  rw [runUpd, if_pos hready]

theorem diskStepUpdate_tasks (resolve : DataVolume → String) (step : PStep)
    (dvs : List DataVolume) :
    (diskStepUpdate resolve step dvs).tasks =
      (dvs.foldl (processDv resolve) { tasks := step.tasks }).tasks := by
  rw [diskStepUpdate]
  dsimp only
  split_ifs <;> rfl

/-- C7 (amended): when `updatePipeline` processes a not-yet-completed
DiskTransfer step (`diskStepUpdate`), a task matched to a data volume
that has a Running condition, is not blocked (no Bound=False condition),
and holds the Ready condition, has its progress completed set to its
total and is marked completed (the matched volume being the only one
resolving to that task); and the step's aggregate phase is `Completed`
when the number of volumes that completed their task in this pass equals
the task count, else `Blocked` when some matched volume was blocked,
else `Running` when some matched volume was running, else unchanged.
The per-pass counts are characterized by the fold-independent volume
classification `classifyDv`. -/
theorem c7_amended_disk_transfer (resolve : DataVolume → String)
    (step : PStep) (dvs l1 l2 : List DataVolume) (dv : DataVolume)
    (t : Task) (c : Condition)
    (hsplit : dvs = l1 ++ dv :: l2)
    (h1 : ∀ d ∈ l1, resolve d ≠ resolve dv)
    (h2 : ∀ d ∈ l2, resolve d ≠ resolve dv)
    (hfind : findTask step.tasks (resolve dv) = some t)
    (hnb : dvBlocked dv = none)
    (hrun : findCondition dv.conditions Running = some c)
    (hready : hasCondition dv.conditions Ready = true) :
    findTask (diskStepUpdate resolve step dvs).tasks (resolve dv) =
      some { t with
             started := true
             phase := Running
             reason := c.reason
             completedP := t.total
             completed := true }
    ∧ (diskStepUpdate resolve step dvs).phase =
        (if dvs.countP (fun d => isReadyC
              (classifyDv resolve (step.tasks.map (fun u => u.name)) d))
            = step.tasks.length then Completed
         else if 0 < dvs.countP (fun d => isBlockedC
              (classifyDv resolve (step.tasks.map (fun u => u.name)) d))
           then Blocked
         else if 0 < dvs.countP (fun d => isRunC
              (classifyDv resolve (step.tasks.map (fun u => u.name)) d))
           then Running
         else step.phase) := by
  obtain ⟨hb, hc, hr, hn⟩ :=
    foldl_processDv_counts resolve dvs { tasks := step.tasks }
  constructor
  · rw [diskStepUpdate_tasks, hsplit, List.foldl_append, List.foldl_cons]
    rw [foldl_processDv_skip resolve l2 _ h2]
    refine processDv_hit resolve _ dv t c ?_ hnb hrun hready
    rw [foldl_processDv_skip resolve l1 _ h1]
    exact hfind
  · have hlen :
        ((dvs.foldl (processDv resolve) { tasks := step.tasks }).tasks).length
          = step.tasks.length := by
      have h := congrArg List.length hn
      simpa using h
    rw [diskStepUpdate]
    dsimp only
    rw [hb, hc, hr, hlen]
    simp only [Nat.zero_add]
    split_ifs <;> rfl

/-- C7 witness: the amended theorem applied to a single-task step and a
single matching data volume holding Running and Ready. -/
theorem c7_amended_witness :
    findTask
        (diskStepUpdate (fun dv => dv.dvId) c7wstep [c7wdv]).tasks "t1"
      = some { name := "t1", total := 5, started := true, phase := Running,
               reason := "ok", completedP := 5, completed := true }
    ∧ (diskStepUpdate (fun dv => dv.dvId) c7wstep [c7wdv]).phase
        = Completed := by
  have h := c7_amended_disk_transfer (fun dv => dv.dvId) c7wstep [c7wdv]
    [] [] c7wdv { name := "t1", total := 5 }
    { type := Running, status := True', reason := "ok" }
    rfl (by simp) (by simp) rfl rfl rfl rfl
  constructor
  · have h1 := h.1
    simpa using h1
  · rw [h.2]
    rfl

/-- C7 counterexample: a data volume holding the Ready condition but
carrying no Running condition leaves its matched task (and the whole
pipeline) unchanged, while the claim requires the task to be completed
and the step phase to become Completed. -/
theorem c7_counterexample :
    updatePipelineFn (fun dv => dv.dvId) c7vm c7imp = c7vm
    ∧ hasCondition c7dv.conditions Ready = true
    ∧ (findTask c7step.tasks c7dv.dvId).isSome = true
    ∧ (findTask c7step.tasks "t1").map (fun t => t.completed) = some false
    ∧ c7step.completed = false := by decide

end Forklift

namespace Forklift

theorem hasCondition_markReset_false (l : List Condition) (t : String)
    (h : hasCondition l t = false) :
    hasCondition (markResetConditions l) t = false := by
  cases hb : hasCondition (markResetConditions l) t with
  | false => rfl
  | true => rw [hasCondition_markReset_imp l t hb] at h; cases h

theorem hasAnyCondition_true (l : List Condition) (ts : List String) :
    hasAnyCondition l ts = true ↔ ∃ t ∈ ts, hasCondition l t = true := by
  simp [hasAnyCondition, List.any_eq_true]

theorem vmInv_of_clean (vm : VMStatus)
    (hS : hasCondition vm.conditions Succeeded = false)
    (hF : hasCondition vm.conditions Failed = false)
    (hC : hasCondition vm.conditions Canceled = false) : vmInv vm := by
  refine ⟨?_, ?_, ?_, ?_, ?_⟩
  · intro h; rw [hS] at h; cases h
  · intro h; rw [hF] at h; cases h
  · intro h; rw [hC] at h; cases h
  · rintro ⟨h, _⟩; rw [hS] at h; cases h
  · rintro ⟨h, _⟩; rw [hS] at h; cases h

theorem clean_of_inv (vm : VMStatus) (hinv : vmInv vm)
    (hph : vm.phase ≠ Completed) :
    hasCondition vm.conditions Succeeded = false
    ∧ hasCondition vm.conditions Failed = false
    ∧ hasCondition vm.conditions Canceled = false := by
  obtain ⟨h1, h2, h3, _, _⟩ := hinv
  refine ⟨?_, ?_, ?_⟩
  · cases hb : hasCondition vm.conditions Succeeded with
    | false => rfl
    | true => exact absurd (h1 hb) hph
  · cases hb : hasCondition vm.conditions Failed with
    | false => rfl
    | true => exact absurd (h2 hb) hph
  · cases hb : hasCondition vm.conditions Canceled with
    | false => rfl
    | true => exact absurd (h3 hb) hph

theorem imageStepUpdate_snd (imp : VmImport) (conds0 : List Condition)
    (step0 : PStep) :
    (imageStepUpdate imp conds0 step0).2 =
      (match findCondition imp.conditions Processing with
       | none => conds0
       | some c =>
         if c.reason = Pending then setCondition conds0 pendingCondition
         else if c.reason = CopyingPaused then
           setCondition conds0 pausedCondition
         else conds0) := by
  rw [imageStepUpdate]
  cases findCondition imp.conditions Processing <;>
    cases findCondition imp.conditions Succeeded <;>
    dsimp only <;> split_ifs <;> rfl

theorem imageStepUpdate_conds (imp : VmImport) (conds0 : List Condition)
    (step0 : PStep) (t : String) (h1 : t ≠ Pending) (h2 : t ≠ Paused) :
    hasCondition (imageStepUpdate imp conds0 step0).2 t =
      hasCondition conds0 t := by
  rw [imageStepUpdate_snd]
  cases findCondition imp.conditions Processing with
  | none => rfl
  | some c =>
    dsimp only
    split_ifs
    · exact hasCondition_setCondition_ne _ _ _ h1
    · exact hasCondition_setCondition_ne _ _ _ h2
    · rfl

theorem processStep_conds (resolve : DataVolume → String) (imp : VmImport)
    (a : PipeAcc) (st : PStep) (t : String)
    (h1 : t ≠ Pending) (h2 : t ≠ Paused) :
    hasCondition (processStep resolve imp a st).conds t =
      hasCondition a.conds t := by
  rw [processStep]
  by_cases hcp : st.completed = true
  · rw [if_pos hcp]
  · rw [if_neg hcp]
    dsimp only
    by_cases hd : st.name = DiskTransfer
    · rw [if_pos hd]
    · rw [if_neg hd]
      by_cases hi : st.name = ImageConversion
      · rw [if_pos hi]
        exact imageStepUpdate_conds imp a.conds st t h1 h2
      · rw [if_neg hi]

theorem updatePipelineFn_conds (resolve : DataVolume → String)
    (vm : VMStatus) (imp : VmImport) (t : String)
    (h1 : t ≠ Pending) (h2 : t ≠ Paused) :
    hasCondition (updatePipelineFn resolve vm imp).conditions t =
      hasCondition vm.conditions t := by
  rw [updatePipelineFn]
  dsimp only
  suffices hh : ∀ (p : List PStep) (a : PipeAcc),
      hasCondition (p.foldl (processStep resolve imp) a).conds t =
        hasCondition a.conds t by
    exact hh vm.pipeline _
  intro p
  induction p with
  | nil => intro a; rfl
  | cons stp rest ih =>
    intro a
    rw [List.foldl_cons, ih, processStep_conds resolve imp a stp t h1 h2]

theorem updateVMFn_conds (env : StepEnv) (vm : VMStatus) (t : String)
    (h1 : t ≠ Pending) (h2 : t ≠ Paused) :
    hasCondition (updateVMFn env vm).conditions t =
      hasCondition vm.conditions t := by
  rw [updateVMFn]
  cases env.imp with
  | none => rfl
  | some imp =>
    dsimp only
    by_cases hw : imp.warm = true
    · rw [if_pos hw]
      exact updatePipelineFn_conds env.resolve vm imp t h1 h2
    · rw [if_neg hw]
      exact updatePipelineFn_conds env.resolve vm imp t h1 h2

theorem hookRun_conds (env : StepEnv) (vm : VMStatus) :
    (hookRun env vm).conditions = vm.conditions := by
  rw [hookRun]; cases findStep vm.pipeline vm.phase <;> rfl

theorem advanceOn_conds (vm : VMStatus) (s : PStep) :
    (advanceOn vm s).conditions = vm.conditions := by
  rw [advanceOn]; split_ifs <;> rfl

theorem stepSwitch_conds (env : StepEnv) (vm : VMStatus) (t : String)
    (h1 : t ≠ Pending) (h2 : t ≠ Paused) :
    hasCondition (SwitchOut.vmOf (stepSwitch env vm)).conditions t =
      hasCondition vm.conditions t := by
  rw [stepSwitch]
  by_cases hs : vm.phase = Started
  · rw [if_pos hs]; rfl
  · rw [if_neg hs]
    by_cases hh : vm.phase = PreHook ∨ vm.phase = PostHook
    · rw [if_pos hh]
      dsimp only
      cases env.hookErr with
      | some e =>
        dsimp only [SwitchOut.vmOf]
        rw [hookRun_conds]
      | none =>
        dsimp only
        cases findStep (hookRun env vm).pipeline (hookRun env vm).phase with
        | some s =>
          dsimp only
          by_cases hcs : s.completed = true ∧ s.error = []
          · rw [if_pos hcs]
            dsimp only [SwitchOut.vmOf]
            rw [hookRun_conds]
          · rw [if_neg hcs]
            dsimp only [SwitchOut.vmOf]
            rw [hookRun_conds]
        | none =>
          dsimp only [SwitchOut.vmOf]
          rw [hookRun_conds]
    · rw [if_neg hh]
      by_cases hci : vm.phase = CreateImport
      · rw [if_pos hci]
        cases env.ensure <;> rfl
      · rw [if_neg hci]
        by_cases hic : vm.phase = ImportCreated
        · rw [if_pos hic]
          cases env.ensure with
          | notReady => rfl
          | failed m => rfl
          | ok =>
            dsimp only
            by_cases him : env.importMapErr = true
            · rw [if_pos him]; rfl
            · rw [if_neg him]
              cases findStep (updateVMFn env vm).pipeline ImageConversion with
              | some s =>
                dsimp only [SwitchOut.vmOf]
                rw [advanceOn_conds]
                exact updateVMFn_conds env vm t h1 h2
              | none =>
                dsimp only
                cases findStep (updateVMFn env vm).pipeline DiskTransfer with
                | some s =>
                  dsimp only [SwitchOut.vmOf]
                  rw [advanceOn_conds]
                  exact updateVMFn_conds env vm t h1 h2
                | none =>
                  dsimp only [SwitchOut.vmOf]
                  exact updateVMFn_conds env vm t h1 h2
        · rw [if_neg hic]
          by_cases hcm : vm.phase = Completed
          · rw [if_pos hcm]; rfl
          · rw [if_neg hcm]; rfl

theorem stampFn_inv (vm : VMStatus)
    (hS : hasCondition vm.conditions Succeeded = false)
    (hF : hasCondition vm.conditions Failed = false)
    (hC : hasCondition vm.conditions Canceled = false) :
    vmInv (stampFn vm) := by
  rw [stampFn]
  by_cases hb1 : vm.phase = Completed ∧ vm.error = []
  · rw [if_pos hb1]
    have hF1 : hasCondition
        (setCondition vm.conditions succeededCondition) Failed = false :=
      hasCondition_setCondition_false _ _ _ (by decide) hF
    have hC1 : hasCondition
        (setCondition vm.conditions succeededCondition) Canceled = false :=
      hasCondition_setCondition_false _ _ _ (by decide) hC
    refine ⟨fun _ => hb1.1, ?_, ?_, ?_, ?_⟩
    · intro h; rw [hF1] at h; cases h
    · intro h; rw [hC1] at h; cases h
    · rintro ⟨_, h⟩; rw [hF1] at h; cases h
    · rintro ⟨_, h⟩; rw [hC1] at h; cases h
  · rw [if_neg hb1]
    by_cases hb2 : vm.error ≠ []
    · rw [if_pos hb2]
      have hS1 : hasCondition
          (setCondition vm.conditions failedCondition) Succeeded = false :=
        hasCondition_setCondition_false _ _ _ (by decide) hS
      have hC1 : hasCondition
          (setCondition vm.conditions failedCondition) Canceled = false :=
        hasCondition_setCondition_false _ _ _ (by decide) hC
      refine ⟨fun _ => rfl, fun _ => rfl, fun _ => rfl, ?_, ?_⟩
      · rintro ⟨h, _⟩; rw [hS1] at h; cases h
      · rintro ⟨h, _⟩; rw [hS1] at h; cases h
    · rw [if_neg hb2]
      exact vmInv_of_clean vm hS hF hC

theorem stepFn_inv (cancelSet : List String) (env : StepEnv) (vm : VMStatus)
    (hinv : vmInv vm) (hph : vm.phase ≠ Completed) :
    vmInv (stepFn cancelSet env vm).1 := by
  obtain ⟨hS, hF, hC⟩ := clean_of_inv vm hinv hph
  rw [stepFn]
  by_cases hc : vm.ref ∈ cancelSet
  · rw [if_pos hc]
    dsimp only
    have hS1 : hasCondition
        (setCondition vm.conditions canceledCondition) Succeeded = false :=
      hasCondition_setCondition_false _ _ _ (by decide) hS
    have hF1 : hasCondition
        (setCondition vm.conditions canceledCondition) Failed = false :=
      hasCondition_setCondition_false _ _ _ (by decide) hF
    refine ⟨fun _ => rfl, fun _ => rfl, fun _ => rfl, ?_, ?_⟩
    · rintro ⟨h, _⟩; rw [hS1] at h; cases h
    · rintro ⟨h, _⟩; rw [hS1] at h; cases h
  · rw [if_neg hc]
    have hcS := stepSwitch_conds env vm Succeeded (by decide) (by decide)
    have hcF := stepSwitch_conds env vm Failed (by decide) (by decide)
    have hcC := stepSwitch_conds env vm Canceled (by decide) (by decide)
    cases hsw : stepSwitch env vm with
    | ret vm1 e =>
      rw [hsw] at hcS hcF hcC
      dsimp only [SwitchOut.vmOf] at hcS hcF hcC
      dsimp only
      exact vmInv_of_clean vm1 (by rw [hcS, hS]) (by rw [hcF, hF])
        (by rw [hcC, hC])
    | fall vm1 =>
      rw [hsw] at hcS hcF hcC
      dsimp only [SwitchOut.vmOf] at hcS hcF hcC
      dsimp only
      rw [reflectPipeline]
      exact stampFn_inv vm1 (by rw [hcS, hS]) (by rw [hcF, hF])
        (by rw [hcC, hC])

end Forklift

namespace Forklift

theorem chooseStatus_inv (cur : List VMStatus) (vm : VM)
    (hc : ∀ x ∈ cur, vmInv x) : vmInv (chooseStatus cur vm) := by
  rw [chooseStatus]
  cases hf : findVMStatus cur vm.ref with
  | some c =>
    exact hc c (List.mem_of_find?_eq_some (by simpa [findVMStatus] using hf))
  | none => exact vmInv_of_clean _ rfl rfl rfl

theorem rebuildStatus_inv (pipeline : List PStep) (firstP : String)
    (st : VMStatus)
    (hS : hasCondition st.conditions Succeeded = false) :
    vmInv (rebuildStatus pipeline firstP st) := by
  apply vmInv_of_clean
  · exact hasCondition_markReset_false _ _
      (hasCondition_deleteCondition_false _ _ _ hS)
  · exact hasCondition_markReset_false _ _
      (hasCondition_deleteCondition_mem _ _ _ (by simp))
  · exact hasCondition_markReset_false _ _
      (hasCondition_deleteCondition_mem _ _ _ (by simp))

theorem mem_updateFirstStatus_const (l : List VMStatus) (r : String)
    (st1 : VMStatus) :
    ∀ x ∈ updateFirstStatus l r (fun _ => st1), x ∈ l ∨ x = st1 := by
  induction l with
  | nil => intro x hx; cases hx
  | cons y rest ih =>
    intro x hx
    rw [updateFirstStatus] at hx
    by_cases h : y.ref = r
    · rw [if_pos h] at hx
      rcases List.mem_cons.1 hx with rfl | hx'
      · exact Or.inr rfl
      · exact Or.inl (List.mem_cons_of_mem _ hx')
    · rw [if_neg h] at hx
      rcases List.mem_cons.1 hx with rfl | hx'
      · exact Or.inl (List.mem_cons_self _ _)
      · rcases ih x hx' with h1 | h1
        · exact Or.inl (List.mem_cons_of_mem _ h1)
        · exact Or.inr h1

theorem mem_putStatus (cur : List VMStatus) (r : String) (st1 : VMStatus) :
    ∀ x ∈ putStatus cur r st1, x ∈ cur ∨ x = st1 := by
  intro x hx
  rw [putStatus] at hx
  cases hf : findVMStatus cur r with
  | some c =>
    rw [hf] at hx
    exact mem_updateFirstStatus_const cur r st1 x hx
  | none =>
    rw [hf] at hx
    exact Or.inl hx

theorem addUpdateLoop_inv (env : BeginEnv) (spec : List VM) :
    ∀ (cur out : List VMStatus),
      (∀ x ∈ cur, vmInv x) → (∀ x ∈ out, vmInv x) →
      (∀ x ∈ (addUpdateLoop env spec cur out).1, vmInv x)
      ∧ (∀ x ∈ (addUpdateLoop env spec cur out).2.1, vmInv x) := by
  induction spec with
  | nil => intro cur out hc ho; rw [addUpdateLoop]; exact ⟨hc, ho⟩
  | cons vm rest ih =>
    intro cur out hc ho
    rw [addUpdateLoop]
    have hst : vmInv (chooseStatus cur vm) := chooseStatus_inv cur vm hc
    by_cases hcond : (chooseStatus cur vm).phase ≠ Completed
      ∨ hasAnyCondition (chooseStatus cur vm).conditions [Canceled, Failed]
        = true
    · rw [if_pos hcond]
      cases hbp : buildPipelineFn env vm with
      | none => exact ⟨hc, ho⟩
      | some pipeline =>
        dsimp only
        have hS : hasCondition (chooseStatus cur vm).conditions Succeeded
            = false := by
          cases hb : hasCondition (chooseStatus cur vm).conditions Succeeded
            with
          | false => rfl
          | true =>
            obtain ⟨h1, _, _, h4, h5⟩ := hst
            have hF : hasCondition (chooseStatus cur vm).conditions Failed
                = false := by
              cases hbf : hasCondition (chooseStatus cur vm).conditions Failed
                with
              | false => rfl
              | true => exact absurd ⟨hb, hbf⟩ h4
            have hC : hasCondition (chooseStatus cur vm).conditions Canceled
                = false := by
              cases hbc :
                hasCondition (chooseStatus cur vm).conditions Canceled with
              | false => rfl
              | true => exact absurd ⟨hb, hbc⟩ h5
            rcases hcond with hcond | hcond
            · exact absurd (h1 hb) hcond
            · rcases (hasAnyCondition_true _ _).1 hcond with ⟨t, ht, htrue⟩
              rcases (by simpa using ht : t = Canceled ∨ t = Failed)
                with rfl | rfl
              · rw [hC] at htrue; cases htrue
              · rw [hF] at htrue; cases htrue
        have hinv1 : vmInv (rebuildStatus pipeline (itinFirst vm.hooks)
            (chooseStatus cur vm)) := rebuildStatus_inv _ _ _ hS
        refine ih _ _ ?_ ?_
        · intro x hx
          rcases mem_putStatus cur vm.ref _ x hx with h1 | h1
          · exact hc x h1
          · rw [h1]; exact hinv1
        · intro x hx
          rcases List.mem_append.1 hx with h1 | h1
          · exact ho x h1
          · rw [List.mem_singleton] at h1
            rw [h1]; exact hinv1
    · rw [if_neg hcond]
      refine ih cur (out ++ [chooseStatus cur vm]) hc ?_
      intro x hx
      rcases List.mem_append.1 hx with h1 | h1
      · exact ho x h1
      · rw [List.mem_singleton] at h1
        rw [h1]; exact hst

theorem beginFn_inv (env : BeginEnv) (s : MState)
    (h : ∀ x ∈ s.vms, vmInv x) :
    ∀ x ∈ (beginFn env s).1.vms, vmInv x := by
  rw [beginFn]
  by_cases h0 : hasAnyCondition s.snapshot
      [Executing, Succeeded, Failed, Canceled] = true
  · rw [if_pos h0]; exact h
  · rw [if_neg h0]
    dsimp only
    by_cases hns : env.namespaceOk = true
    · rw [if_neg (not_not_intro hns)]
      by_cases hai : (s.vms.any fun st => ¬ env.inventoryOk st.ref) = true
      · rw [if_pos hai]; exact h
      · rw [if_neg (by simpa using hai)]
        have hkept : ∀ x ∈ s.vms.filter
            (fun st => s.specVMs.any fun vm => vm.ref = st.ref), vmInv x :=
          fun x hx => h x (List.mem_filter.1 hx).1
        obtain ⟨ha, hb⟩ := addUpdateLoop_inv env s.specVMs _ [] hkept
          (fun x hx => absurd hx (List.not_mem_nil x))
        by_cases hbad : (addUpdateLoop env s.specVMs
            (s.vms.filter (fun st => s.specVMs.any fun vm => vm.ref = st.ref))
            []).2.2 = true
        · rw [if_pos hbad]; exact ha
        · rw [if_neg hbad]; exact hb
    · rw [if_pos (by simpa using hns)]; exact h

theorem cancelLoop_inv (env : EndEnv) :
    ∀ (l : List VMStatus), (∀ x ∈ l, vmInv x) →
      ∀ x ∈ (cancelLoop env l).1, vmInv x := by
  intro l
  induction l with
  | nil => intro h x hx; cases hx
  | cons vm rest ih =>
    intro h x hx
    rw [cancelLoop] at hx
    by_cases h1 : hasAnyCondition vm.conditions [Canceled, Failed] = true
    · rw [if_pos h1] at hx
      by_cases h2 : env.deleteOk vm.ref = true
      · rw [if_pos h2] at hx
        dsimp only at hx
        rcases List.mem_cons.1 hx with rfl | hx'
        · exact h vm (List.mem_cons_self _ _)
        · exact ih (fun y hy => h y (List.mem_cons_of_mem _ hy)) x hx'
      · rw [if_neg h2] at hx
        exact h x hx
    · rw [if_neg h1] at hx
      dsimp only at hx
      rcases List.mem_cons.1 hx with rfl | hx'
      · exact h _ (List.mem_cons_self _ _)
      · exact ih (fun y hy => h y (List.mem_cons_of_mem _ hy)) x hx'

theorem cancelFn_inv (env : EndEnv) (s : MState)
    (h : ∀ x ∈ s.vms, vmInv x) :
    ∀ x ∈ (cancelFn env s).1.vms, vmInv x := by
  rw [cancelFn]
  dsimp only
  exact cancelLoop_inv env s.vms h

theorem endFn_inv (env : EndEnv) (s : MState)
    (h : ∀ x ∈ s.vms, vmInv x) :
    ∀ x ∈ (endFn env s).1.vms, vmInv x := by
  rw [endFn]
  by_cases h1 : (s.vms.any fun vm => ¬ vm.completed) = true
  · rw [if_pos h1]; exact h
  · rw [if_neg h1]
    dsimp only
    by_cases h2 : 0 < s.vms.countP
        (fun vm => hasCondition vm.conditions Failed)
    · rw [if_pos h2]
      dsimp only
      exact cancelLoop_inv env s.vms h
    · rw [if_neg h2]
      by_cases h3 : 0 < s.vms.countP
          (fun vm => hasCondition vm.conditions Succeeded)
      · rw [if_pos h3]; exact h
      · rw [if_neg h3]; exact h

theorem reach_vmInv {s : MState} (h : Reach s) : ∀ x ∈ s.vms, vmInv x := by
  induction h with
  | init spec cancel => intro x hx; cases hx
  | beginR env _ ih => exact beginFn_inv env _ ih
  | stepR env i hlt hp _ ih =>
    intro x hx
    rcases List.mem_or_eq_of_mem_set hx with hx' | rfl
    · exact ih x hx'
    · exact stepFn_inv _ env _ (ih _ (List.get_mem _ i hlt)) hp
  | endR env _ ih => exact endFn_inv env _ ih
  | cancelR env _ ih => exact cancelFn_inv env _ ih
  | recancel c _ ih => exact ih

/-- C5: in every plan state reachable by the controller's operations
(begin, per-VM step on running or newly scheduled VMs, end, Cancel, and
user edits of the cancel set), no VM status ever holds both the
`Succeeded` and the `Failed` condition, and whenever either is held the
VM's phase is `Completed`. -/
theorem c5_succeeded_failed_exclusive (s : MState) (h : Reach s) :
    ∀ vm ∈ s.vms,
      ¬(hasCondition vm.conditions Succeeded = true
         ∧ hasCondition vm.conditions Failed = true)
      ∧ ((hasCondition vm.conditions Succeeded = true
          ∨ hasCondition vm.conditions Failed = true) →
          vm.phase = Completed) := by
  intro vm hvm
  obtain ⟨h1, h2, _, h4, _⟩ := reach_vmInv h vm hvm
  exact ⟨h4, fun hsf => hsf.elim h1 h2⟩

/-- C5 witness: the theorem applied to the single VM of a fresh plan
right after its first `begin`. -/
theorem c5_witness :
    ¬(hasCondition c5wvm.conditions Succeeded = true
       ∧ hasCondition c5wvm.conditions Failed = true)
    ∧ ((hasCondition c5wvm.conditions Succeeded = true
        ∨ hasCondition c5wvm.conditions Failed = true) →
        c5wvm.phase = Completed) :=
  c5_succeeded_failed_exclusive c5state
    (Reach.beginR {} (Reach.init c5spec [])) c5wvm (by decide)

end Forklift
